import Mathlib

/-!
Verification of the pics media-organising and backup tool.

This file gives a shallow embedding, in Lean 4, of the core algorithms of the
repository (file renamer, chained date extractor, restore filter, archive-key
handling, backup decision logic, worker pool, directory renamer, and the
tar-based backup/restore engine), together with theorems settling the frozen
specification claims C1 - C10.

Modelling conventions:
* Go strings are modelled as lists of characters (`Str`).  Go compares strings
  byte-wise; for the ASCII data handled here the character-wise order used in
  the model coincides with it.
* `time.Time` values are modelled as calendar tuples (`DateTime`) ordered
  lexicographically; the zero value mirrors Go's zero time (January 1, year 1).
* File systems are modelled as association lists from component paths to
  objects; the tar+gzip byte encoding of an archive is abstracted to its
  sequence of entries (header name, type flag, mode, regular-file contents),
  exactly the information `createTarGz` writes and `extractTarGz` reads.
* Worker pools are sequentialised: per-job results in the code are collected
  into order-insensitive aggregates (counts of successes/failures), and the
  store/filesystem operations of distinct jobs touch distinct keys, so the
  deterministic fold used here exhibits the same observable behaviour.
-/

namespace Pics

/-- Characters of a Go string. -/
abbrev Str := List Char

/-- ASCII lower-casing of one character (model of `strings.ToLower` on the
ASCII-only extension data the code compares). -/
def lowerChar (c : Char) : Char :=
  if 'A' ≤ c ∧ c ≤ 'Z' then Char.ofNat (c.toNat + 32) else c

/-- `strings.ToLower`. -/
def toLowerStr (s : Str) : Str := s.map lowerChar

/-- Whitespace test used by `strings.Fields` (ASCII subset of `unicode.IsSpace`;
the repository's keys and directory names only contain spaces). -/
def isSpaceChar (c : Char) : Bool :=
  c = ' ' ∨ c = '\t' ∨ c = '\n' ∨ c = '\r'

/-- Worker for `goFields`: accumulates the current token (reversed). -/
def goFieldsAux : Str → Str → List Str
  | acc, [] => if acc = [] then [] else [acc.reverse]
  | acc, c :: rest =>
    if isSpaceChar c then
      if acc = [] then goFieldsAux [] rest else acc.reverse :: goFieldsAux [] rest
    else goFieldsAux (c :: acc) rest

/-- `strings.Fields`: split on whitespace runs. -/
def goFields (s : Str) : List Str := goFieldsAux [] s

/-- Numeric value of a decimal digit character. -/
def digitVal (c : Char) : Nat := c.toNat - 48

/-- Decimal digit test. -/
def isDigitChar (c : Char) : Bool := '0' ≤ c ∧ c ≤ '9'

/-- Value of a digit string (most significant first), accumulator form. -/
def digitsValAux : Nat → Str → Nat
  | acc, [] => acc
  | acc, c :: rest => digitsValAux (acc * 10 + digitVal c) rest

/-- `fmt.Sscanf(s, "%d", &x)` with the error ignored, as the code does: an
optional sign followed by the longest digit prefix; if there is no digit the
scanned variable keeps its zero value. -/
def scanInt (s : Str) : Int :=
  match s with
  | '-' :: rest =>
    let ds := rest.takeWhile isDigitChar
    if ds = [] then 0 else -(digitsValAux 0 ds : Int)
  | '+' :: rest =>
    let ds := rest.takeWhile isDigitChar
    if ds = [] then 0 else (digitsValAux 0 ds : Int)
  | _ =>
    let ds := s.takeWhile isDigitChar
    if ds = [] then 0 else (digitsValAux 0 ds : Int)

/-- `strconv.Atoi`: the whole string must be an optionally signed decimal
number, otherwise an error (`none`). -/
def goAtoi (s : Str) : Option Int :=
  match s with
  | [] => none
  | '-' :: rest =>
    if rest ≠ [] ∧ rest.all isDigitChar then some (-(digitsValAux 0 rest : Int)) else none
  | '+' :: rest =>
    if rest ≠ [] ∧ rest.all isDigitChar then some ((digitsValAux 0 rest : Int)) else none
  | _ =>
    if s.all isDigitChar then some ((digitsValAux 0 s : Int)) else none

/-- Decimal digit character for one digit value. -/
def digitChar (n : Nat) : Char := Char.ofNat (48 + n)

/-- Fuel-driven worker for decimal rendering (the fuel strictly bounds the
number, so it never runs out). -/
def natCharsAux : Nat → Nat → Str
  | 0, _ => []
  | fuel + 1, n =>
    if n < 10 then [digitChar n]
    else natCharsAux fuel (n / 10) ++ [digitChar (n % 10)]

/-- Decimal rendering of a natural number (`fmt.Sprintf("%d", n)`). -/
def natChars (n : Nat) : Str := natCharsAux (n + 1) n

/-- `fmt.Sprintf("%05d", n)`: zero-pad to width five (wider numbers are
printed in full). -/
def pad5 (n : Nat) : Str :=
  let ds := natChars n
  List.replicate (5 - ds.length) '0' ++ ds

/-- `filepath.Ext`: the suffix of the name starting at the final dot; empty if
the final path element has no dot.  Worker walks the reversed string. -/
def extOfAux : Str → Str → Str
  | [], _ => []
  | c :: rest, acc =>
    if c = '.' then '.' :: acc
    else if c = '/' then []
    else extOfAux rest (c :: acc)

/-- `filepath.Ext`. -/
def extOf (s : Str) : Str := extOfAux s.reverse []

/-- `filepath.Join(dir, name)` for the already-clean paths used here. -/
def joinP (dir name : Str) : Str := dir ++ '/' :: name

/-- Boolean list-prefix test (model of the prefix check behind
`strings.Index` / `strings.HasSuffix`). -/
def prefB : Str → Str → Bool
  | [], _ => true
  | _ :: _, [] => false
  | a :: as, b :: bs => if a = b then prefB as bs else false

/-- Boolean suffix test (`strings.HasSuffix`). -/
def suffB (suffix s : Str) : Bool := prefB suffix.reverse s.reverse

/-- `strings.Index(s, sub)`: index of the first occurrence of `sub`, `none`
for Go's `-1`. -/
def goIndexSub : Str → Str → Option Nat
  | [], sub => if prefB sub [] then some 0 else none
  | c :: t, sub =>
    if prefB sub (c :: t) then some 0 else (goIndexSub t sub).map (· + 1)

/-- `strings.TrimSuffix`. -/
def goTrimSuffix (s suffix : Str) : Str :=
  if suffB suffix s then s.take (s.length - suffix.length) else s

/-- `strings.ReplaceAll(s, " ", "_")` (both patterns are single characters). -/
def replaceSpaces (s : Str) : Str := s.map (fun c => if c = ' ' then '_' else c)

/-- Join a list of fields with single spaces (`strings.Join(parts, " ")`). -/
def joinSpace : List Str → Str
  | [] => []
  | [p] => p
  | p :: rest => p ++ ' ' :: joinSpace rest

/-! ## Time values

Go `time.Time` values are modelled by their calendar components; `Before` is
the (chronological, hence lexicographic) order and the zero value is
January 1 of year 1, `00:00:00`, exactly `time.Time{}`. -/

/-- Model of a `time.Time` instant. -/
structure DateTime where
  year : Nat
  month : Nat
  day : Nat
  hour : Nat
  minute : Nat
  second : Nat
deriving DecidableEq, Repr

/-- The components, most significant first. -/
def DateTime.key (t : DateTime) : List Nat :=
  [t.year, t.month, t.day, t.hour, t.minute, t.second]

/-- Generic boolean lexicographic order on lists. -/
def lexLtB {α : Type} (ltb : α → α → Bool) : List α → List α → Bool
  | [], [] => false
  | [], _ :: _ => true
  | _ :: _, [] => false
  | a :: as, b :: bs =>
    if ltb a b then true else if ltb b a then false else lexLtB ltb as bs

/-- Boolean `<` on naturals. -/
def natLtB (a b : Nat) : Bool := a < b

/-- `time.Time.Before`. -/
def dtLtB (a b : DateTime) : Bool := lexLtB natLtB a.key b.key

/-- `time.Time{}` (Go's zero time). -/
def zeroTime : DateTime := ⟨1, 1, 1, 0, 0, 0⟩

/-- Gregorian leap-year rule (as in Go's date validation). -/
def isLeapYear (y : Nat) : Bool := y % 4 = 0 ∧ (y % 100 ≠ 0 ∨ y % 400 = 0)

/-- Days in a month, as Go's `time.Parse` validates them. -/
def daysInMonth (y m : Nat) : Nat :=
  if m = 2 then (if isLeapYear y then 29 else 28)
  else if m = 4 ∨ m = 6 ∨ m = 9 ∨ m = 11 then 30
  else 31

/-- Read exactly two digit characters. -/
def twoDigits (a b : Char) : Option Nat :=
  if isDigitChar a ∧ isDigitChar b then some (digitVal a * 10 + digitVal b) else none

/-- Parse the clock part `hh:mm:ss` of the EXIF layout; Go's `15` verb also
accepts a single-digit hour. -/
def parseClock : Str → Option (Nat × Nat × Nat)
  | [a, b, ':', c, d, ':', e, f] => do
    let h ← twoDigits a b
    let mi ← twoDigits c d
    let s ← twoDigits e f
    pure (h, mi, s)
  | [a, ':', c, d, ':', e, f] => do
    if isDigitChar a then
      let mi ← twoDigits c d
      let s ← twoDigits e f
      pure (digitVal a, mi, s)
    else none
  | _ => none

/-- Model of `time.Parse("2006:01:02 15:04:05", s)`: fixed textual layout with
Go's range validation (month 1-12, day valid for the month, hour below 24,
minute and second below 60).  `none` models a parse error. -/
def parseExifDate (s : Str) : Option DateTime :=
  match s with
  | y1 :: y2 :: y3 :: y4 :: ':' :: m1 :: m2 :: ':' :: d1 :: d2 :: ' ' :: rest =>
    if isDigitChar y1 ∧ isDigitChar y2 ∧ isDigitChar y3 ∧ isDigitChar y4 then
      match twoDigits m1 m2, twoDigits d1 d2, parseClock rest with
      | some mo, some da, some (h, mi, sec) =>
        let y := digitsValAux 0 [y1, y2, y3, y4]
        if 1 ≤ mo ∧ mo ≤ 12 ∧ 1 ≤ da ∧ da ≤ daysInMonth y mo ∧
            h ≤ 23 ∧ mi ≤ 59 ∧ sec ≤ 59 then
          some ⟨y, mo, da, h, mi, sec⟩
        else none
      | _, _, _ => none
    else none
  | _ => none

/-! ## Extension classifier (`internal/pics/extensions.go`) -/

/-- The supported image extensions. -/
def imageExts : List Str :=
  [(".jpg").data, (".jpeg").data, (".heic").data, (".png").data]

/-- The supported video extensions. -/
def videoExts : List Str :=
  [(".mov").data, (".mp4").data, (".avi").data, (".mkv").data, (".webm").data,
   (".flv").data, (".wmv").data, (".m4v").data, (".3gp").data, (".m2ts").data,
   (".mts").data, (".ogv").data, (".ts").data]

/-- `Extensions.IsImage`. -/
def isImageB (filePath : Str) : Bool := toLowerStr (extOf filePath) ∈ imageExts

/-- `Extensions.IsVideo`. -/
def isVideoB (filePath : Str) : Bool := toLowerStr (extOf filePath) ∈ videoExts

/-- `Extensions.IsJPEG`. -/
def isJPEGB (filePath : Str) : Bool :=
  toLowerStr (extOf filePath) = (".jpg").data ∨ toLowerStr (extOf filePath) = (".jpeg").data

/-! ## Association lists (model of directory listings, object stores, maps) -/

/-- Lookup in an association list (first match). -/
def alLookup {α β : Type} [DecidableEq α] : List (α × β) → α → Option β
  | [], _ => none
  | (k, v) :: rest, x => if k = x then some v else alLookup rest x

/-- Insert or overwrite a binding. -/
def alInsert {α β : Type} [DecidableEq α] : List (α × β) → α → β → List (α × β)
  | [], x, v => [(x, v)]
  | (k, w) :: rest, x, v => if k = x then (k, v) :: rest else (k, w) :: alInsert rest x v

/-- Remove a binding. -/
def alErase {α β : Type} [DecidableEq α] : List (α × β) → α → List (α × β)
  | [], _ => []
  | (k, w) :: rest, x => if k = x then rest else (k, w) :: alErase rest x

/-! ## File renamer (`renameFilesWithPatternInDir`, final version)

The renamer lists the source directory, keeps the non-directory entries
accepted by the filter, resolves each file's date through the aggregated date
extractor (falling back to the zero time on failure), sorts by
`(date, path)` with the comparator passed to `sort.Slice`, and renames the
`i`-th file (1-based) to `{baseName}_{i:05d}{lowercased ext}`.  The comparator
is a strict total order whenever the paths are distinct (always true for a
directory listing), so the unstable `sort.Slice` has a unique possible output
and the sorting algorithm used by the model is immaterial. -/

/-- Boolean `<` on characters (byte order of Go strings; ASCII here). -/
def chLtB (a b : Char) : Bool := a < b

/-- Go string `<`. -/
def strLtB (a b : Str) : Bool := lexLtB chLtB a b

/-- A directory entry as returned by `os.ReadDir`. -/
structure DirEnt where
  name : Str
  isDir : Bool
deriving DecidableEq, Repr

/-- `fileWithDate` together with the entry name it came from. -/
structure FWD where
  name : Str
  path : Str
  date : DateTime
deriving DecidableEq, Repr

/-- The `less` function passed to `sort.Slice`: dates compared with `Before`,
paths breaking ties of `Equal` dates. -/
def lessGoB (a b : FWD) : Bool :=
  if a.date = b.date then strLtB a.path b.path else dtLtB a.date b.date

/-- Date resolution with the renamer's fallback: on extractor error the zero
time is used. -/
def resolvedDate (getDate : Str → Option DateTime) (p : Str) : DateTime :=
  (getDate p).getD zeroTime

/-- Collect the files to rename: skip directories, apply the filter to the
joined path, resolve dates. -/
def collectFiles (entries : List DirEnt) (sourceDir : Str) (filter : Str → Bool)
    (getDate : Str → Option DateTime) : List FWD :=
  entries.filterMap fun e =>
    if e.isDir then none
    else
      let fp := joinP sourceDir e.name
      if filter fp then some ⟨e.name, fp, resolvedDate getDate fp⟩ else none

/-- The sort of `renameFilesWithPatternInDir` (any sorted permutation; see the
section comment on `sort.Slice`). -/
def sortFiles (l : List FWD) : List FWD :=
  List.insertionSort (fun a b => lessGoB b a = false) l

/-- One `os.Rename` performed by the loop. -/
structure RenameStep where
  oldName : Str
  oldPath : Str
  newName : Str
  newPath : Str
deriving DecidableEq, Repr

/-- The rename loop: the `i`-th sorted file (1-based) goes to
`{baseName}_{i:05d}{ext}` in the target directory, `ext` lowercased. -/
def mkSteps (targetDir baseName : Str) : Nat → List FWD → List RenameStep
  | _, [] => []
  | i, f :: rest =>
    let ext := toLowerStr (extOf f.path)
    let newName := baseName ++ '_' :: pad5 i ++ ext
    ⟨f.name, f.path, newName, joinP targetDir newName⟩ :: mkSteps targetDir baseName (i + 1) rest

/-- `renameFilesWithPatternInDir` up to (but not performing) the filesystem
moves: the list of renames it will execute, and its return value. -/
def renameAssignment (entries : List DirEnt) (sourceDir targetDir baseName : Str)
    (filter : Str → Bool) (getDate : Str → Option DateTime) : List RenameStep × Nat :=
  let files := collectFiles entries sourceDir filter getDate
  if files.isEmpty then ([], 0)
  else (mkSteps targetDir baseName 1 (sortFiles files), files.length)

/-- The contents of one directory: file name to byte contents. -/
abbrev DirSt := List (Str × List Nat)

/-- `os.Rename(old, new)` inside one directory: the target, if present, is
silently replaced (POSIX rename semantics); a missing source is an error. -/
def applyStep (st : DirSt) (old new : Str) : Option DirSt :=
  match alLookup st old with
  | none => none
  | some c => some (alInsert (alErase st old) new c)

/-- The rename loop's filesystem effect, step by step. -/
def applySteps : DirSt → List (Str × Str) → Option DirSt
  | st, [] => some st
  | st, (old, new) :: rest =>
    match applyStep st old new with
    | none => none
    | some st' => applySteps st' rest

/-- `RenameFilesWithPattern` (in-place use) acting on a directory state:
computes the assignment from the directory listing and executes it. -/
def renameInPlaceRun (dir baseName : Str) (filter : Str → Bool)
    (getDate : Str → Option DateTime) (st : DirSt) : Option (DirSt × Nat) :=
  let entries := st.map fun kv => DirEnt.mk kv.1 false
  let (steps, n) := renameAssignment entries dir dir baseName filter getDate
  match applySteps st (steps.map fun s => (s.oldName, s.newName)) with
  | some st' => some (st', n)
  | none => none

/-! ## Chained date extractor (`file_date_extractor.go`)

`AggregatedFileDateExtractor` tries the EXIF extractor and then the
modification-time extractor; a strategy succeeds when it returns no error and
a non-zero timestamp.  The EXIF extractor reads the first present field among
`CreationDate`, `CreateDate` and parses it with the fixed layout; a parse
failure makes the whole EXIF strategy fail. -/

/-- What the collaborating metadata/stat layer yields for one file. -/
structure MediaMeta where
  /-- Exiftool started and produced per-file metadata without error. -/
  metaOk : Bool
  /-- `GetString("CreationDate")`, `none` when the field is absent. -/
  creationDate : Option Str
  /-- `GetString("CreateDate")`. -/
  createDate : Option Str
  /-- `os.Stat` modification time, `none` when stat fails. -/
  modTime : Option DateTime
deriving DecidableEq, Repr

/-- Failure reasons of the extractor strategies. -/
inductive ExtErr where
  | metaUnavailable
  | parseFailed
  | noExifDateField
  | statFailed
  | allFailed
deriving DecidableEq, Repr

/-- `exifDateExtractor.getFileDate`: first present field among `CreationDate`,
`CreateDate`; its value is parsed with the fixed layout and a parse failure is
returned as this strategy's error. -/
def exifGetFileDate (m : MediaMeta) : Except ExtErr DateTime :=
  if m.metaOk then
    match m.creationDate with
    | some v =>
      match parseExifDate v with
      | some t => .ok t
      | none => .error .parseFailed
    | none =>
      match m.createDate with
      | some v =>
        match parseExifDate v with
        | some t => .ok t
        | none => .error .parseFailed
      | none => .error .noExifDateField
  else .error .metaUnavailable

/-- `modTimeExtractor.getFileDate`. -/
def modTimeGetFileDate (m : MediaMeta) : Except ExtErr DateTime :=
  match m.modTime with
  | some t => .ok t
  | none => .error .statFailed

/-- The aggregated loop: first strategy returning no error and a non-zero
timestamp wins; otherwise the chain fails. -/
def firstNonZero : List (Except ExtErr DateTime) → Except ExtErr DateTime
  | [] => .error .allFailed
  | r :: rest =>
    match r with
    | .ok t => if t = zeroTime then firstNonZero rest else .ok t
    | .error _ => firstNonZero rest

/-- `AggregatedFileDateExtractor.GetFileDate`. -/
def getFileDateAgg (m : MediaMeta) : Except ExtErr DateTime :=
  firstNonZero [exifGetFileDate m, modTimeGetFileDate m]

/-- Claim-side strategy (C5's reading): `CreationDate` alone as a strategy. -/
def specCreationStrategy (m : MediaMeta) : Except ExtErr DateTime :=
  if m.metaOk then
    match m.creationDate with
    | some v =>
      match parseExifDate v with
      | some t => .ok t
      | none => .error .parseFailed
    | none => .error .noExifDateField
  else .error .metaUnavailable

/-- Claim-side strategy (C5's reading): `CreateDate` alone as a strategy. -/
def specCreateStrategy (m : MediaMeta) : Except ExtErr DateTime :=
  if m.metaOk then
    match m.createDate with
    | some v =>
      match parseExifDate v with
      | some t => .ok t
      | none => .error .parseFailed
    | none => .error .noExifDateField
  else .error .metaUnavailable

/-- The three-strategy chain exactly as claim C5 words it: CreationDate, then
CreateDate, then modification time, first non-zero no-error result wins.
(Definition written from the claim, for refutation by comparison with
`getFileDateAgg`, which is written from the source.) -/
def specThreeStrategyChain (m : MediaMeta) : Except ExtErr DateTime :=
  firstNonZero [specCreationStrategy m, specCreateStrategy m, modTimeGetFileDate m]

/-! ## Restore filter (`matchesFilter`, s3_backup.go) -/

/-- `RestoreFilter`. -/
structure RestoreFilter where
  FromYear : Int
  FromMonth : Int
  ToYear : Int
  ToMonth : Int
deriving DecidableEq, Repr

/-- The filter with no bounds. -/
def emptyFilter : RestoreFilter := ⟨0, 0, 0, 0⟩

/-- The lower-bound test of `matchesFilter` (`true` = not rejected). -/
def lowerOkB (year month : Int) (f : RestoreFilter) : Bool :=
  if 0 < f.FromYear then
    let fromMonth := if f.FromMonth = 0 then 1 else f.FromMonth
    if year < f.FromYear ∨ (year = f.FromYear ∧ month < fromMonth) then false else true
  else true

/-- The upper-bound test of `matchesFilter`. -/
def upperOkB (year month : Int) (f : RestoreFilter) : Bool :=
  if 0 < f.ToYear then
    let toMonth := if f.ToMonth = 0 then 12 else f.ToMonth
    if f.ToYear < year ∨ (year = f.ToYear ∧ toMonth < month) then false else true
  else true

/-- `matchesFilter`: parse year and month from the first two fields of the
key, reject unparseable keys, then check both bounds. -/
def matchesFilter (key : Str) (f : RestoreFilter) : Bool :=
  let parts := goFields key
  if parts.length < 2 then false
  else
    let year := scanInt (parts.getD 0 [])
    let month := scanInt (parts.getD 1 [])
    if year = 0 ∨ month = 0 then false
    else lowerOkB year month f && upperOkB year month f

/-- The (year, month) a key parses to, `none` when `matchesFilter` rejects it
before looking at the bounds. -/
def keyYearMonth (key : Str) : Option (Int × Int) :=
  let parts := goFields key
  if parts.length < 2 then none
  else
    let year := scanInt (parts.getD 0 [])
    let month := scanInt (parts.getD 1 [])
    if year = 0 ∨ month = 0 then none else some (year, month)

/-- One month before a (year, month) pair. -/
def prevMonth (y m : Int) : Int × Int := if m = 1 then (y - 1, 12) else (y, m - 1)

/-- One month after a (year, month) pair. -/
def nextMonth (y m : Int) : Int × Int := if m = 12 then (y + 1, 1) else (y, m + 1)

/-! ## Archive keys (`backupDirectory`, `extractDirNameFromKey`) -/

/-- The key built by `backupDirectory` before the `.tar.gz` suffix:
`"{dir} ({n} images, {m} videos)"`. -/
def keyBody (dirName : Str) (images videos : Nat) : Str :=
  dirName ++ (" (").data ++ natChars images ++ (" images, ").data ++
    natChars videos ++ (" videos)").data

/-- The S3 object key `"{dir} ({n} images, {m} videos).tar.gz"`. -/
def mkKey (dirName : Str) (images videos : Nat) : Str :=
  keyBody dirName images videos ++ (".tar.gz").data

/-- `extractDirNameFromKey`: strip the `.tar.gz` suffix, then cut at the
first occurrence of `" ("`. -/
def extractDirNameFromKey (key : Str) : Str :=
  let name := goTrimSuffix key ((".tar.gz").data)
  match goIndexSub name ((" (").data) with
  | some idx => name.take idx
  | none => name

/-- The strict date-directory-name validation of `RenameDirectory`: at least
four whitespace fields, numeric year 1000-9999 and month 1-12. -/
def isDateDirName (s : Str) : Bool :=
  let parts := goFields s
  if parts.length < 4 then false
  else
    match goAtoi (parts.getD 0 []), goAtoi (parts.getD 1 []) with
    | some y, some mo => ¬(y < 1000 ∨ 9999 < y) ∧ ¬(mo < 1 ∨ 12 < mo)
    | _, _ => false

/-! ## Backup decision logic (`backupDirectory`, `extractETag`,
`isNotFoundError`) -/

/-- An error returned by the object store, with the features
`isNotFoundError` inspects. -/
structure S3Err where
  /-- `errors.As(err, *types.NotFound)` succeeds. -/
  notFoundType : Bool
  /-- The `smithy.APIError` code, when the error carries one. -/
  apiCode : Option Str
  /-- `err.Error()`. -/
  msg : Str
deriving DecidableEq, Repr

/-- `strings.Contains`. -/
def containsSub (s sub : Str) : Bool := (goIndexSub s sub).isSome

/-- `isNotFoundError`: the exact type, the API code `"NotFound"`, or a
message containing `"NotFound"` or `"StatusCode: 404"`. -/
def isNotFoundError (e : S3Err) : Bool :=
  e.notFoundType ||
    (match e.apiCode with
     | some c => c = ("NotFound").data
     | none => false) ||
    containsSub e.msg (("NotFound").data) ||
    containsSub e.msg (("StatusCode: 404").data)

/-- `extractETag`: `nil` and empty become empty; one pair of surrounding
quotes is removed. -/
def extractETag (etag : Option Str) : Str :=
  match etag with
  | none => []
  | some v =>
    if v = [] then []
    else if 2 ≤ v.length ∧ v.head? = some '"' ∧ v.getLast? = some '"' then
      (v.drop 1).dropLast
    else v

/-- Outcome of the `HeadObject` existence check. -/
inductive HeadRes where
  | ok (etag : Option Str)
  | errR (e : S3Err)
deriving DecidableEq, Repr

/-- How a backup job can fail. -/
inductive BackupErr where
  | etagMissing
  | hashMismatch (localHash remoteHash : Str)
  | headError (e : S3Err)
deriving DecidableEq, Repr

/-- What `backupDirectory` decides to do after the existence check. -/
inductive BackupAction where
  | upload
  | skip
  | fail (e : BackupErr)
deriving DecidableEq, Repr

/-- The branch structure of `backupDirectory` from the `HeadObject` result on:
present with empty ETag fails, matching hash skips, differing hash fails
naming both hashes; an absent object uploads; any other head error fails. -/
def backupHeadDecision (headRes : HeadRes) (localHash : Str) : BackupAction :=
  match headRes with
  | .ok etag =>
    let remoteETag := extractETag etag
    if remoteETag = [] then .fail .etagMissing
    else if remoteETag = localHash then .skip
    else .fail (.hashMismatch localHash remoteETag)
  | .errR e =>
    if isNotFoundError e then .upload
    else .fail (.headError e)

/-! ## Tar archives and the filesystem model (`createTarGz`, `extractTarGz`) -/

/-- One tar header plus contents, the information `createTarGz` writes:
entry name (as path components), directory flag, permission bits
(`FileInfoHeader` stores `Mode().Perm()`), and file contents. -/
structure TarEntry where
  name : List Str
  isDir : Bool
  mode : Nat
  content : List Nat
deriving DecidableEq, Repr

/-- One filesystem entry under an archived directory, in `filepath.Walk`
order (parents before children): relative path components, directory flag,
permission bits, contents. -/
structure SrcEntry where
  path : List Str
  isDir : Bool
  perm : Nat
  content : List Nat
deriving DecidableEq, Repr

/-- An immediate subdirectory of the backup source: its name, its own
permission bits, and its walk sequence. -/
structure SrcDir where
  name : Str
  rootPerm : Nat
  entries : List SrcEntry
deriving DecidableEq, Repr

/-- How one walked entry appears in the archive: under `baseName/relPath`. -/
def liftE (dirName : Str) (e : SrcEntry) : TarEntry :=
  ⟨dirName :: e.path, e.isDir, e.perm, e.content⟩

/-- `createTarGz sourceDir`: the walk emits the root (relative path `"."`)
under the directory's base name, then every entry under `baseName/relPath`. -/
def createTarGzModel (dirName : Str) (rootPerm : Nat) (entries : List SrcEntry) :
    List TarEntry :=
  ⟨[dirName], true, rootPerm, []⟩ :: entries.map (liftE dirName)

/-- An object in the target filesystem: directory, or regular file with
permission bits and contents. -/
inductive FSObj where
  | dirO
  | fileO (perm : Nat) (content : List Nat)
deriving DecidableEq, Repr

/-- The restore target filesystem: component paths (relative to the target
directory) to objects. -/
abbrev FS := List (List Str × FSObj)

/-- The object extraction leaves behind for one archive entry. -/
def entryObj (t : TarEntry) : FSObj :=
  if t.isDir then .dirO else .fileO t.mode t.content

/-- Lookup (`os.Stat`-style presence check included). -/
def fsLookup : FS → List Str → Option FSObj
  | [], _ => none
  | (q, o) :: rest, p => if q = p then some o else fsLookup rest p

/-- Insert or overwrite. -/
def fsInsert : FS → List Str → FSObj → FS
  | [], p, o => [(p, o)]
  | (q, w) :: rest, p, o => if q = p then (q, o) :: rest else (q, w) :: fsInsert rest p o

/-- Extraction failures. -/
inductive ExtractErr where
  | notADirectory
  | chmodMissing
deriving DecidableEq, Repr

/-- `os.MkdirAll` walking the components after `done`: an existing directory
is kept, an existing file is an error, a missing component is created. -/
def mkdirAllFrom (fs : FS) (done : List Str) : List Str → Except ExtractErr FS
  | [] => .ok fs
  | c :: rest =>
    let q := done ++ [c]
    match fsLookup fs q with
    | some .dirO => mkdirAllFrom fs q rest
    | some (.fileO _ _) => .error .notADirectory
    | none => mkdirAllFrom (fsInsert fs q .dirO) q rest

/-- `os.MkdirAll(path, 0755)`. -/
def mkdirAll (fs : FS) (p : List Str) : Except ExtractErr FS := mkdirAllFrom fs [] p

/-- `os.Chmod(path, mode)` on the just-created file. -/
def chmodFS (fs : FS) (p : List Str) (m : Nat) : Except ExtractErr FS :=
  match fsLookup fs p with
  | some (.fileO _ c) => .ok (fsInsert fs p (.fileO m c))
  | some .dirO => .ok fs
  | none => .error .chmodMissing

/-- One iteration of the `extractTarGz` loop: directories are `MkdirAll`-ed,
regular files get their parent created, are written (`os.Create` mode 0666),
and then `os.Chmod`-ed to the header mode. -/
def extractEntry (fs : FS) (e : TarEntry) : Except ExtractErr FS :=
  if e.isDir then mkdirAll fs e.name
  else
    match mkdirAll fs e.name.dropLast with
    | .error err => .error err
    | .ok fs1 => chmodFS (fsInsert fs1 e.name (.fileO 438 e.content)) e.name e.mode

/-- `extractTarGz`. -/
def extractTarGzModel (fs : FS) : List TarEntry → Except ExtractErr FS
  | [] => .ok fs
  | e :: rest =>
    match extractEntry fs e with
    | .error err => .error err
    | .ok fs' => extractTarGzModel fs' rest

/-! ## The backup/restore engine over an in-memory object store -/

/-- The object store: key to archived entry sequence.  The ETag of a stored
object is the digest of its bytes, as S3 reports for plain uploads. -/
abbrev Store := List (Str × List TarEntry)

/-- Stand-in for the MD5 digest of the archive bytes: an injective encoding
of the entry sequence (the claims only compare digests for equality). -/
def md5Model (a : List TarEntry) : Str := (reprStr a).data

/-- Count images at the top level and videos under a `videos` subdirectory,
as `countMediaFiles` does with `ReadDir`. -/
def countMediaFilesModel (dirPath : Str) (entries : List SrcEntry) : Nat × Nat :=
  let images := entries.countP fun e =>
    match e.path with
    | [nm] => ¬e.isDir ∧ isImageB (joinP dirPath nm) = true
    | _ => False
  let hasVideosDir := entries.any fun e => e.path = [("videos").data] ∧ e.isDir
  let videos :=
    if hasVideosDir then
      entries.countP fun e =>
        match e.path with
        | [v, nm] => v = ("videos").data ∧ ¬e.isDir ∧
            isVideoB (joinP (joinP dirPath (("videos").data)) nm) = true
        | _ => False
    else 0
  (images, videos)

/-- The key `backupDirectory` computes for a directory. -/
def keyFor (sourceDir : Str) (d : SrcDir) : Str :=
  let counts := countMediaFilesModel (joinP sourceDir d.name) d.entries
  mkKey d.name counts.1 counts.2

/-- The archive `backupDirectory` builds for a directory. -/
def archiveFor (d : SrcDir) : List TarEntry :=
  createTarGzModel d.name d.rootPerm d.entries

/-- `backupDirectory`: build the key, archive the directory, hash it, head
the store, and act on the result (upload / skip / fail). -/
def backupDirectoryModel (sourceDir : Str) (store : Store) (d : SrcDir) :
    Store × Option BackupErr :=
  let key := keyFor sourceDir d
  let archive := archiveFor d
  let localHash := md5Model archive
  let headRes : HeadRes :=
    match alLookup store key with
    | some a => .ok (some ('"' :: md5Model a ++ ['"']))
    | none => .errR ⟨true, some (("NotFound").data), ("NotFound").data⟩
  match backupHeadDecision headRes localHash with
  | .upload => (alInsert store key archive, none)
  | .skip => (store, none)
  | .fail e => (store, some e)

/-- The state-threaded worker pool shared by backup and restore
(`runWorkerPool`): with a non-positive size no worker is started and no job
runs; otherwise every job runs and per-job failures are counted. -/
def runPoolSt {α σ ε : Type} (jobs : List α) (maxConcurrent : Int)
    (step : σ → α → σ × Option ε) (s0 : σ) : σ × Nat :=
  if maxConcurrent ≤ 0 then (s0, 0)
  else
    jobs.foldl
      (fun acc j =>
        let r := step acc.1 j
        (r.1, acc.2 + if r.2.isSome then 1 else 0))
      (s0, 0)

/-- `BackupDirectories` over the listed subdirectories (in `os.ReadDir`'s
sorted order): the worker pool over `backupDirectory`, failures counted into
the summary error. -/
def backupDirectoriesModel (sourceDir : Str) (store0 : Store) (dirs : List SrcDir)
    (maxConcurrent : Int) : Store × Nat :=
  runPoolSt dirs maxConcurrent (fun st d => backupDirectoryModel sourceDir st d) store0

/-- How a restore job can fail. -/
inductive RestoreErr where
  | alreadyExists
  | downloadFailed
  | extractFailed (e : ExtractErr)
deriving DecidableEq, Repr

/-- `restoreObject`: derive the directory name from the key, refuse to
overwrite, download, and extract into the target. -/
def restoreObjectModel (store : Store) (fs : FS) (key : Str) :
    FS × Option RestoreErr :=
  let dirName := extractDirNameFromKey key
  if (fsLookup fs [dirName]).isSome then (fs, some .alreadyExists)
  else
    match alLookup store key with
    | none => (fs, some .downloadFailed)
    | some a =>
      match extractTarGzModel fs a with
      | .ok fs' => (fs', none)
      | .error e => (fs, some (.extractFailed e))

/-- `RestoreDirectories`: list the store (in key order), keep the keys the
filter accepts, and run the worker pool over `restoreObject`. -/
def restoreDirectoriesModel (store : Store) (filter : RestoreFilter) (fs0 : FS)
    (maxConcurrent : Int) : FS × Nat :=
  let keys := (store.map Prod.fst).filter fun k => matchesFilter k filter
  runPoolSt keys maxConcurrent (fun fs k => restoreObjectModel store fs k) fs0

/-- Walk well-formedness, accumulator form: every entry has a nonempty path,
every proper prefix of its path appeared earlier as a directory, and no path
repeats.  `filepath.Walk` sequences satisfy this. -/
def walkWFAux : List SrcEntry → List SrcEntry → Prop
  | _, [] => True
  | processed, e :: rest =>
    e.path ≠ [] ∧
    (∀ k, k < e.path.length → 0 < k →
      ∃ t ∈ processed, t.path = e.path.take k ∧ t.isDir = true) ∧
    (∀ t ∈ processed, t.path ≠ e.path) ∧
    walkWFAux (processed ++ [e]) rest

/-- Walk well-formedness of a directory's entry sequence. -/
def walkWF (l : List SrcEntry) : Prop := walkWFAux [] l

/-- The same shape for archives. -/
def arcWFAux : List TarEntry → List TarEntry → Prop
  | _, [] => True
  | processed, e :: rest =>
    e.name ≠ [] ∧
    (∀ k, k < e.name.length → 0 < k →
      ∃ t ∈ processed, t.name = e.name.take k ∧ t.isDir = true) ∧
    (∀ t ∈ processed, t.name ≠ e.name) ∧
    arcWFAux (processed ++ [e]) rest

/-! ## Worker pools and concurrency defaults (`runWorkerPool`,
`copyAndCompressFiles`, `main.backup`) -/

/-- The observable behaviour of `runWorkerPool` (s3_backup.go): processed-job
count, and the summary (successes, failures) when any job failed.  A
non-positive pool size starts no workers: the buffered job channel is filled
and closed, `wg.Wait` returns at once, and the empty result set yields `nil`. -/
def runWorkerPool {α ε : Type} (jobs : List α) (maxConcurrent : Int)
    (f : α → Option ε) : Nat × Option (Nat × Nat) :=
  if jobs.isEmpty then (0, none)
  else if maxConcurrent ≤ 0 then (0, none)
  else
    let fails := jobs.countP fun j => (f j).isSome
    (jobs.length, if fails = 0 then none else some (jobs.length - fails, fails))

/-- The worker count of `copyAndCompressFiles`: non-positive requested
concurrency falls back to 100. -/
def numWorkersMedia (maxConcurrency : Int) : Int :=
  if maxConcurrency ≤ 0 then 100 else maxConcurrency

/-- The observable behaviour of the media copy/compress pool: all discovered
jobs are processed (the worker count is always positive after the fallback)
and the first recorded error is surfaced. -/
def copyAndCompressFilesModel {α ε : Type} (jobs : List α) (maxConcurrency : Int)
    (f : α → Option ε) : Nat × Option ε :=
  let n := numWorkersMedia maxConcurrency
  if n ≤ 0 then (0, none)
  else (jobs.length, (jobs.filterMap fun j => f j).head?)

/-- `main.backup`'s pool-size computation: 5 when `MAX_CONCURRENT` is unset,
otherwise the parsed value (unvalidated); a parse failure exits (`none`). -/
def maxConcurrentFromEnv (env : Option Str) : Option Int :=
  match env with
  | none => some 5
  | some s => goAtoi s

/-! ## Directory renamer (`RenameDirectory`) -/

/-- The contents of a date directory: top-level files and the optional
`videos` subdirectory. -/
structure DirContent where
  files : DirSt
  videos : Option DirSt
deriving DecidableEq

/-- Directories by path. -/
abbrev World := List (Str × DirContent)

/-- How `RenameDirectory` can fail. -/
inductive RenErr where
  | notExist
  | badName
  | badYear
  | badMonth
  | targetExists
  | renameFailed
deriving DecidableEq, Repr

/-- The directory name `RenameDirectory` computes: the four date fields,
joined by spaces, plus the optional new suffix. -/
def computedDirName (base newName : Str) : Str :=
  joinSpace ((goFields base).take 4) ++ (if newName = [] then [] else ' ' :: newName)

/-- `RenameDirectory`: validate the name, refuse an existing target, then
rename images in place, rename videos in the `videos` subdirectory, and move
the directory last. -/
def renameDirectoryModel (w : World) (parent base newName : Str)
    (getDate : Str → Option DateTime) : World × Option RenErr :=
  let dirPath := joinP parent base
  match alLookup w dirPath with
  | none => (w, some .notExist)
  | some d =>
    let parts := goFields base
    if parts.length < 4 then (w, some .badName)
    else
      match goAtoi (parts.getD 0 []) with
      | none => (w, some .badYear)
      | some y =>
        if y < 1000 ∨ 9999 < y then (w, some .badYear)
        else
          match goAtoi (parts.getD 1 []) with
          | none => (w, some .badMonth)
          | some mo =>
            if mo < 1 ∨ 12 < mo then (w, some .badMonth)
            else
              let newDirName := computedDirName base newName
              let newDirPath := joinP parent newDirName
              if base ≠ newDirName ∧ (alLookup w newDirPath).isSome then
                (w, some .targetExists)
              else
                let newBase := replaceSpaces newDirName
                match renameInPlaceRun dirPath newBase isImageB getDate d.files with
                | none => (w, some .renameFailed)
                | some (files', _) =>
                  match
                    (match d.videos with
                     | none => some (none : Option DirSt)
                     | some vf =>
                       match renameInPlaceRun (joinP dirPath (("videos").data)) newBase
                           isVideoB getDate vf with
                       | none => none
                       | some (vf', _) => some (some vf')) with
                  | none => (w, some .renameFailed)
                  | some videos' =>
                    if base = newDirName then (alInsert w dirPath ⟨files', videos'⟩, none)
                    else (alInsert (alErase w dirPath) newDirPath ⟨files', videos'⟩, none)

/-! ## Concrete data used by counterexamples and witnesses -/

/-- C5's file: present but unparseable `CreationDate`, parseable
`CreateDate`, and a distinct modification time. -/
def c5meta : MediaMeta :=
  ⟨true, some (("bogus").data), some (("2023:06:15 10:20:30").data),
    some ⟨2024, 1, 2, 3, 4, 5⟩⟩

/-- C9's directory: three images whose dates rank `b_00005.jpg` first,
`a.jpg` second, `b_00001.jpg` third. -/
def c9dir : DirSt :=
  [((("b_00005.jpg").data), [5]), ((("a.jpg").data), [1]), ((("b_00001.jpg").data), [2])]

/-- C9's date assignment. -/
def c9dates (p : Str) : Option DateTime :=
  if p = joinP (("d").data) (("b_00005.jpg").data) then some ⟨2023, 1, 1, 0, 0, 1⟩
  else if p = joinP (("d").data) (("a.jpg").data) then some ⟨2023, 1, 1, 0, 0, 2⟩
  else if p = joinP (("d").data) (("b_00001.jpg").data) then some ⟨2023, 1, 1, 0, 0, 3⟩
  else none

/-- C2's first source directory. -/
def c2dirA : SrcDir := ⟨("2023 06 J 1").data, 493, [⟨[("p.jpg").data], false, 420, [1]⟩]⟩

/-- C2's second source directory: a valid date-directory name whose suffix
contains `" ("`. -/
def c2dirB : SrcDir :=
  ⟨("2023 06 J 1 (a)").data, 493, [⟨[("a.jpg").data], false, 420, [2]⟩]⟩

/-- C2's source listing (in `ReadDir` order). -/
def c2dirs : List SrcDir := [c2dirA, c2dirB]

/-- C2's round trip at the counterexample input: backup into an empty store,
then restore everything into an empty target. -/
def c2run : FS × Nat :=
  restoreDirectoriesModel (backupDirectoriesModel (("src").data) [] c2dirs 5).1
    emptyFilter [] 5

/-! # Theorems -/

/-! ## C10 — missing ETag fails the job; quotes are stripped -/

/-- C10: during backup, when the existence check succeeds but the stored ETag
is nil or empty, the job fails with the ETag-missing error — it is neither a
dedup skip nor an upload, and the store is not mutated; a present ETag has one
pair of surrounding quotes stripped before the hash comparison. -/
theorem C10_missing_etag (h s : Str) :
    backupHeadDecision (.ok none) h = .fail .etagMissing ∧
    backupHeadDecision (.ok (some [])) h = .fail .etagMissing ∧
    extractETag (some ('"' :: s ++ ['"'])) = s := by
  refine ⟨rfl, rfl, ?_⟩
  simp only [extractETag]
  have hne : ('"' :: s ++ ['"'] : Str) ≠ [] := by simp
  rw [if_neg hne]
  have hlen : 2 ≤ ('"' :: s ++ ['"'] : Str).length := by
    simp [List.length_append]
  have hhead : ('"' :: s ++ ['"'] : Str).head? = some '"' := by simp
  have hlast : ('"' :: s ++ ['"'] : Str).getLast? = some '"' := by
    rw [List.getLast?_concat]
  rw [if_pos ⟨hlen, hhead, hlast⟩]
  simp

/-! ## C3 — the four outcomes of the existence check -/

/-- The effect of `backupDirectory`'s decision on the store. -/
def applyBackupAction (store : Store) (key : Str) (arch : List TarEntry) :
    BackupAction → Store × Option BackupErr
  | .upload => (alInsert store key arch, none)
  | .skip => (store, none)
  | .fail e => (store, some e)

/-- C3: after the existence check — absent uploads under the key; present with
the stored hash equal to the local hash succeeds without touching the store;
present with a differing (present) hash fails with an error carrying both
hashes and no store change; any other existence-check error fails the job. -/
theorem C3_head_branching (store : Store) (key : Str) (arch : List TarEntry)
    (h : Str) (etag : Option Str) (e : S3Err) :
    (isNotFoundError e = true →
      applyBackupAction store key arch (backupHeadDecision (.errR e) h) =
        (alInsert store key arch, none)) ∧
    (extractETag etag = h → h ≠ [] →
      applyBackupAction store key arch (backupHeadDecision (.ok etag) h) =
        (store, none)) ∧
    (extractETag etag ≠ [] → extractETag etag ≠ h →
      applyBackupAction store key arch (backupHeadDecision (.ok etag) h) =
        (store, some (.hashMismatch h (extractETag etag)))) ∧
    (isNotFoundError e = false →
      applyBackupAction store key arch (backupHeadDecision (.errR e) h) =
        (store, some (.headError e))) := by
  refine ⟨?_, ?_, ?_, ?_⟩
  · intro hnf
    simp [backupHeadDecision, hnf, applyBackupAction]
  · intro heq hne
    simp [backupHeadDecision, heq, hne, applyBackupAction]
  · intro hne hneq
    simp [backupHeadDecision, hne, hneq, applyBackupAction]
  · intro hnf
    simp [backupHeadDecision, hnf, applyBackupAction]

/-- Witness for C3 at concrete inputs. -/
theorem C3_head_branching_witness :
    (applyBackupAction [] (("k").data) [] (backupHeadDecision
        (.errR ⟨true, none, ("NotFound").data⟩) (("ab").data)) =
      (alInsert [] (("k").data) [], none)) ∧
    (applyBackupAction [] (("k").data) [] (backupHeadDecision
        (.ok (some (("ab").data))) (("ab").data)) = ([], none)) ∧
    (applyBackupAction [] (("k").data) [] (backupHeadDecision
        (.ok (some (("cd").data))) (("ab").data)) =
      ([], some (.hashMismatch (("ab").data) (("cd").data)))) ∧
    (applyBackupAction [] (("k").data) [] (backupHeadDecision
        (.errR ⟨false, none, ("boom").data⟩) (("ab").data)) =
      ([], some (.headError ⟨false, none, ("boom").data⟩))) := by
  obtain ⟨h1, h2, h3, h4⟩ :=
    C3_head_branching [] (("k").data) [] (("ab").data) (some (("ab").data))
      ⟨true, none, ("NotFound").data⟩
  obtain ⟨_, _, h3', _⟩ :=
    C3_head_branching [] (("k").data) [] (("ab").data) (some (("cd").data))
      ⟨false, none, ("boom").data⟩
  refine ⟨h1 (by decide), h2 (by decide) (by decide), ?_, ?_⟩
  · have := h3' (by decide) (by decide)
    have hx : extractETag (some (("cd").data)) = ("cd").data := by decide
    rw [hx] at this
    exact this
  · obtain ⟨_, _, _, h4'⟩ :=
      C3_head_branching [] (("k").data) [] (("ab").data) (some (("cd").data))
        ⟨false, none, ("boom").data⟩
    exact h4' (by decide)

/-! ## C7 — the pool-size-zero fallback -/

/-- C7 counterexample: the backup/restore worker pool called with pool size 0
and one job processes no job at all and still reports success, so size 0 does
not fall back to the documented default of 5. -/
theorem C7_pool_default_counterexample :
    runWorkerPool [()] 0 (fun _ => (none : Option Unit)) = (0, none) ∧
    (runWorkerPool [()] 0 (fun _ => (none : Option Unit))).1 ≠ [()].length := by
  constructor
  · rfl
  · decide

/-- C7 amended: a non-positive pool size falls back to 100 workers for media
copy/compress, where every job is then processed; the backup/restore worker
pool applies no fallback — with size 0 it starts no workers, processes
nothing, and reports success — and the backup CLI's default of 5 is applied
only when `MAX_CONCURRENT` is unset (an explicit `"0"` is passed through). -/
theorem C7_pool_default_amended {α ε : Type} (jobs : List α) (mc : Int)
    (f : α → Option ε) :
    (mc ≤ 0 → numWorkersMedia mc = 100) ∧
    (mc ≤ 0 → (copyAndCompressFilesModel jobs mc f).1 = jobs.length) ∧
    runWorkerPool jobs 0 f = (0, none) ∧
    maxConcurrentFromEnv none = some 5 ∧
    maxConcurrentFromEnv (some (("0").data)) = some 0 := by
  refine ⟨?_, ?_, ?_, rfl, by decide⟩
  · intro hle
    simp [numWorkersMedia, hle]
  · intro hle
    simp [copyAndCompressFilesModel, numWorkersMedia, hle]
  · by_cases hj : jobs.isEmpty
    · simp [runWorkerPool, hj]
    · simp [runWorkerPool, hj]

/-- Witness for C7's amended theorem. -/
theorem C7_pool_default_amended_witness :
    numWorkersMedia 0 = 100 ∧
    (copyAndCompressFilesModel [()] 0 (fun _ => (none : Option Unit))).1 = 1 ∧
    runWorkerPool [()] 0 (fun _ => (none : Option Unit)) = (0, none) := by
  obtain ⟨h1, h2, h3, _, _⟩ :=
    C7_pool_default_amended [()] 0 (fun _ => (none : Option Unit))
  exact ⟨h1 (by decide), h2 (by decide), h3⟩

/-! ## C5 — the date-extractor chain -/

/-- C5 counterexample: on a file whose `CreationDate` is present but
unparseable while `CreateDate` parses, the claimed three-strategy chain would
return the `CreateDate` timestamp, but the code returns the modification time:
a parse failure fails the whole metadata strategy, skipping `CreateDate`. -/
theorem C5_date_chain_counterexample :
    getFileDateAgg c5meta = .ok ⟨2024, 1, 2, 3, 4, 5⟩ ∧
    specThreeStrategyChain c5meta = .ok ⟨2023, 6, 15, 10, 20, 30⟩ ∧
    getFileDateAgg c5meta ≠ specThreeStrategyChain c5meta := by
  have h1 : getFileDateAgg c5meta = .ok ⟨2024, 1, 2, 3, 4, 5⟩ := by rfl
  have h2 : specThreeStrategyChain c5meta = .ok ⟨2023, 6, 15, 10, 20, 30⟩ := by rfl
  refine ⟨h1, h2, ?_⟩
  rw [h1, h2]
  simp

/-- C5 amended: the chain tries the EXIF-metadata strategy (which reads the
first present field among `CreationDate` and `CreateDate`) and then the
filesystem modification time, succeeding on the first non-zero no-error
result.  When `CreationDate` is present but fails to parse, the whole
metadata strategy fails — `CreateDate` is not consulted — and the chain
proceeds to the modification time; the chain fails only when every strategy
fails. -/
theorem C5_date_chain_amended (m : MediaMeta) (s : Str) :
    (m.metaOk = true → m.creationDate = some s → parseExifDate s = none →
      getFileDateAgg m = firstNonZero [modTimeGetFileDate m]) ∧
    (∀ t, exifGetFileDate m = .ok t → t ≠ zeroTime → getFileDateAgg m = .ok t) ∧
    ((∀ t, exifGetFileDate m = .ok t → t = zeroTime) →
      (∀ t, modTimeGetFileDate m = .ok t → t = zeroTime) →
      getFileDateAgg m = .error .allFailed) := by
  refine ⟨?_, ?_, ?_⟩
  · intro hok hcd hp
    simp [getFileDateAgg, firstNonZero, exifGetFileDate, hok, hcd, hp]
  · intro t hext hnz
    simp [getFileDateAgg, firstNonZero, hext, hnz]
  · intro hext hmod
    simp only [getFileDateAgg, firstNonZero]
    cases he : exifGetFileDate m with
    | ok t =>
      have := hext t he
      simp only [this, if_pos rfl]
      cases hm : modTimeGetFileDate m with
      | ok u =>
        have := hmod u hm
        simp [this]
      | error e => simp
    | error e =>
      cases hm : modTimeGetFileDate m with
      | ok u =>
        have := hmod u hm
        simp [this]
      | error e2 => simp

/-- Witness for C5's amended theorem. -/
theorem C5_date_chain_amended_witness :
    getFileDateAgg c5meta = firstNonZero [modTimeGetFileDate c5meta] := by
  exact (C5_date_chain_amended c5meta (("bogus").data)).1 (by decide) (by decide)
    (by decide)

/-! ## C4 — filter boundaries -/

/-- `matchesFilter` factored through the parse step. -/
theorem matchesFilter_eq (key : Str) (f : RestoreFilter) :
    matchesFilter key f =
      match keyYearMonth key with
      | none => false
      | some (y, m) => lowerOkB y m f && upperOkB y m f := by
  simp only [matchesFilter, keyYearMonth]
  by_cases h1 : (goFields key).length < 2
  · simp [h1]
  · simp only [if_neg h1]
    by_cases ha : scanInt ((goFields key)[0]?.getD []) = 0
    · simp [ha]
    · by_cases hb : scanInt ((goFields key)[1]?.getD []) = 0
      · simp [ha, hb]
      · simp [ha, hb]

/-- The lower-bound test, unfolded. -/
theorem lowerOkB_iff (y m : Int) (f : RestoreFilter) :
    lowerOkB y m f = true ↔
      (0 < f.FromYear →
        ¬(y < f.FromYear ∨
          (y = f.FromYear ∧ m < (if f.FromMonth = 0 then 1 else f.FromMonth)))) := by
  simp only [lowerOkB]
  by_cases h : 0 < f.FromYear
  · simp only [if_pos h]
    by_cases hc : y < f.FromYear ∨
        (y = f.FromYear ∧ m < (if f.FromMonth = 0 then 1 else f.FromMonth))
    · simp [hc, h]
    · simp [hc, h]
  · simp [h]

/-- The upper-bound test, unfolded. -/
theorem upperOkB_iff (y m : Int) (f : RestoreFilter) :
    upperOkB y m f = true ↔
      (0 < f.ToYear →
        ¬(f.ToYear < y ∨
          (y = f.ToYear ∧ (if f.ToMonth = 0 then 12 else f.ToMonth) < m))) := by
  simp only [upperOkB]
  by_cases h : 0 < f.ToYear
  · simp only [if_pos h]
    by_cases hc : f.ToYear < y ∨
        (y = f.ToYear ∧ (if f.ToMonth = 0 then 12 else f.ToMonth) < m)
    · simp [hc, h]
    · simp [hc, h]
  · simp [h]

/-- C4 counterexample: the key parses to exactly `(fromYear, fromMonth)` of
the filter, yet `matchesFilter` rejects it, because the filter's (empty)
upper-bound range also applies; so a key dated exactly `fromYear/fromMonth`
is not always included. -/
theorem C4_filter_boundary_counterexample :
    keyYearMonth (mkKey (("2023 06 J 1").data) 1 0) = some (2023, 6) ∧
    (2023 : Int) = (RestoreFilter.mk 2023 6 2022 0).FromYear ∧
    (6 : Int) = (if (RestoreFilter.mk 2023 6 2022 0).FromMonth = 0 then 1
      else (RestoreFilter.mk 2023 6 2022 0).FromMonth) ∧
    matchesFilter (mkKey (("2023 06 J 1").data) 1 0)
      (RestoreFilter.mk 2023 6 2022 0) = false := by
  refine ⟨by decide, by decide, by decide, by decide⟩

/-- C4 amended: for a key parsing to `(y, m)` — a zero `fromMonth`/`toMonth`
defaulting to January/December and a zero `fromYear`/`toYear` disabling that
bound: a key equal to the (defaulted) lower bound is included provided the
upper bound also admits it, and one month earlier is always excluded;
symmetrically at the upper bound. -/
theorem C4_filter_boundary_amended (key : Str) (f : RestoreFilter) (y m : Int)
    (hk : keyYearMonth key = some (y, m)) :
    (0 < f.FromYear → y = f.FromYear →
      m = (if f.FromMonth = 0 then 1 else f.FromMonth) →
      upperOkB y m f = true → matchesFilter key f = true) ∧
    (0 < f.FromYear →
      (y, m) = prevMonth f.FromYear (if f.FromMonth = 0 then 1 else f.FromMonth) →
      matchesFilter key f = false) ∧
    (0 < f.ToYear → y = f.ToYear →
      m = (if f.ToMonth = 0 then 12 else f.ToMonth) →
      lowerOkB y m f = true → matchesFilter key f = true) ∧
    (0 < f.ToYear →
      (y, m) = nextMonth f.ToYear (if f.ToMonth = 0 then 12 else f.ToMonth) →
      matchesFilter key f = false) ∧
    (f.FromYear = 0 → matchesFilter key f = upperOkB y m f) ∧
    (f.ToYear = 0 → matchesFilter key f = lowerOkB y m f) := by
  have hmf : matchesFilter key f = (lowerOkB y m f && upperOkB y m f) := by
    rw [matchesFilter_eq, hk]
  refine ⟨?_, ?_, ?_, ?_, ?_, ?_⟩
  · intro hfy hy hm hup
    have hlo : lowerOkB y m f = true := by
      rw [lowerOkB_iff]
      intro _
      omega
    rw [hmf, hlo, hup]
    rfl
  · intro hfy hpm
    have hlo : lowerOkB y m f = false := by
      cases h : lowerOkB y m f
      · rfl
      · exfalso
        rw [lowerOkB_iff] at h
        have := h hfy
        simp only [prevMonth] at hpm
        by_cases h1 : (if f.FromMonth = 0 then 1 else f.FromMonth) = 1
        · rw [if_pos h1] at hpm
          have hy : y = f.FromYear - 1 := by
            have := congrArg Prod.fst hpm
            simpa using this
          omega
        · rw [if_neg h1] at hpm
          have hy : y = f.FromYear := by
            have := congrArg Prod.fst hpm
            simpa using this
          have hm : m = (if f.FromMonth = 0 then 1 else f.FromMonth) - 1 := by
            have := congrArg Prod.snd hpm
            simpa using this
          omega
    rw [hmf, hlo]
    rfl
  · intro hty hy hm hlo
    have hup : upperOkB y m f = true := by
      rw [upperOkB_iff]
      intro _
      omega
    rw [hmf, hlo, hup]
    rfl
  · intro hty hnm
    have hup : upperOkB y m f = false := by
      cases h : upperOkB y m f
      · rfl
      · exfalso
        rw [upperOkB_iff] at h
        have := h hty
        simp only [nextMonth] at hnm
        by_cases h1 : (if f.ToMonth = 0 then 12 else f.ToMonth) = 12
        · rw [if_pos h1] at hnm
          have hy : y = f.ToYear + 1 := by
            have := congrArg Prod.fst hnm
            simpa using this
          omega
        · rw [if_neg h1] at hnm
          have hy : y = f.ToYear := by
            have := congrArg Prod.fst hnm
            simpa using this
          have hm : m = (if f.ToMonth = 0 then 12 else f.ToMonth) + 1 := by
            have := congrArg Prod.snd hnm
            simpa using this
          omega
    rw [hmf, hup]
    simp
  · intro h0
    have hlo : lowerOkB y m f = true := by
      rw [lowerOkB_iff]
      intro hc
      omega
    rw [hmf, hlo]
    simp
  · intro h0
    have hup : upperOkB y m f = true := by
      rw [upperOkB_iff]
      intro hc
      omega
    rw [hmf, hup]
    simp

/-- Witness for C4's amended theorem. -/
theorem C4_filter_boundary_amended_witness :
    matchesFilter (mkKey (("2023 06 J 1").data) 1 0)
      (RestoreFilter.mk 2023 6 2023 12) = true ∧
    matchesFilter (mkKey (("2023 05 J 1").data) 1 0)
      (RestoreFilter.mk 2023 6 2023 12) = false := by
  obtain ⟨hin, _, _, _, _, _⟩ :=
    C4_filter_boundary_amended (mkKey (("2023 06 J 1").data) 1 0)
      (RestoreFilter.mk 2023 6 2023 12) 2023 6 (by decide)
  obtain ⟨_, hex, _, _, _, _⟩ :=
    C4_filter_boundary_amended (mkKey (("2023 05 J 1").data) 1 0)
      (RestoreFilter.mk 2023 6 2023 12) 2023 5 (by decide)
  exact ⟨hin (by decide) (by decide) (by decide) (by decide),
    hex (by decide) (by decide)⟩

/-! ## C8 — an existing target aborts the directory rename before any change -/

/-- C8: when the computed directory name differs from the current one and
something already exists at the computed target path, `RenameDirectory` fails
with the target-exists error and leaves the world untouched: no file inside
the directory is renamed and the directory is not moved. -/
theorem C8_no_partial_rename (w : World) (parent base newName : Str)
    (g : Str → Option DateTime) (d d2 : DirContent)
    (hdir : alLookup w (joinP parent base) = some d)
    (hvalid : isDateDirName base = true)
    (hne : computedDirName base newName ≠ base)
    (htgt : alLookup w (joinP parent (computedDirName base newName)) = some d2) :
    renameDirectoryModel w parent base newName g = (w, some .targetExists) := by
  have hmain := hvalid
  simp only [isDateDirName] at hmain
  have h4 : ¬((goFields base).length < 4) := by
    intro hlt
    rw [if_pos hlt] at hmain
    exact absurd hmain (by simp)
  rw [if_neg h4] at hmain
  rcases ha : goAtoi ((goFields base).getD 0 []) with _ | y
  · rw [ha] at hmain
    exact absurd hmain (by simp)
  rcases hb : goAtoi ((goFields base).getD 1 []) with _ | mo
  · rw [ha, hb] at hmain
    exact absurd hmain (by simp)
  rw [ha, hb] at hmain
  simp only [decide_eq_true_eq] at hmain
  have hyr : ¬(y < 1000 ∨ 9999 < y) := hmain.1
  have hmor : ¬(mo < 1 ∨ 12 < mo) := hmain.2
  have hne' : base ≠ computedDirName base newName := Ne.symm hne
  have hsome : (alLookup w (joinP parent (computedDirName base newName))).isSome := by
    rw [htgt]
    rfl
  simp only [renameDirectoryModel, hdir]
  rw [if_neg h4, ha]
  simp only []
  rw [if_neg hyr, hb]
  simp only []
  rw [if_neg hmor]
  rw [if_pos ⟨hne', hsome⟩]

/-- Witness for C8 on a concrete world. -/
theorem C8_no_partial_rename_witness :
    renameDirectoryModel
      [(joinP (("p").data) (("2023 06 J 1 old").data), DirContent.mk [] none),
       (joinP (("p").data) (("2023 06 J 1 new").data), DirContent.mk [] none)]
      (("p").data) (("2023 06 J 1 old").data) (("new").data) (fun _ => none) =
      ([(joinP (("p").data) (("2023 06 J 1 old").data), DirContent.mk [] none),
        (joinP (("p").data) (("2023 06 J 1 new").data), DirContent.mk [] none)],
       some .targetExists) := by
  exact C8_no_partial_rename _ _ _ _ _ (DirContent.mk [] none) (DirContent.mk [] none)
    (by decide) (by decide) (by decide) (by decide)

/-! ## C9 — the renamer can silently overwrite -/

/-- C9: the renamer never checks whether a computed target name already
exists.  In `c9dir`, the filter-matching file `b_00005.jpg` is already named
for position 5 though its sorted rank is 1; `renameInPlace` completes
successfully and returns the full matched-file count 3, yet the content of
`b_00001.jpg` has been silently overwritten (its bytes `[2]` are gone) and
the directory ends with 2 files where it started with 3. -/
theorem C9_silent_overwrite :
    (alLookup c9dir ((("b").data) ++ '_' :: pad5 5 ++ ((".jpg").data))).isSome = true ∧
    isImageB (joinP (("d").data) (("b_00005.jpg").data)) = true ∧
    (renameAssignment (c9dir.map fun kv => DirEnt.mk kv.1 false) (("d").data)
        (("d").data) (("b").data) isImageB c9dates).1.head?.map RenameStep.oldName =
      some (("b_00005.jpg").data) ∧
    c9dir.countP (fun kv => isImageB (joinP (("d").data) kv.1)) = 3 ∧
    renameInPlaceRun (("d").data) (("b").data) isImageB c9dates c9dir =
      some ([((("b_00002.jpg").data), [1]), ((("b_00003.jpg").data), [5])], 3) ∧
    c9dir.length = 3 ∧
    (∀ kv ∈ [((("b_00002.jpg").data), ([1] : List Nat)),
        ((("b_00003.jpg").data), [5])], kv.2 ≠ [2]) := by
  refine ⟨by decide, by decide, by decide, by decide, by decide, by decide, by decide⟩

/-! ## C6 — recovering the directory name from the key -/

/-- Every character of a decimal rendering is a digit character (fuel
worker). -/
theorem natCharsAux_mem (fuel : Nat) :
    ∀ n, ∀ c ∈ natCharsAux fuel n, ∃ k, k < 10 ∧ c = digitChar k := by
  induction fuel with
  | zero =>
    intro n c hc
    simp [natCharsAux] at hc
  | succ fuel ih =>
    intro n c hc
    rw [natCharsAux] at hc
    by_cases h : n < 10
    · rw [if_pos h] at hc
      rcases List.mem_singleton.mp hc with rfl
      exact ⟨n, h, rfl⟩
    · rw [if_neg h] at hc
      rcases List.mem_append.mp hc with hc | hc
      · exact ih (n / 10) c hc
      · rcases List.mem_singleton.mp hc with rfl
        exact ⟨n % 10, Nat.mod_lt _ (by norm_num), rfl⟩

/-- Every character of a decimal rendering is a digit character. -/
theorem natChars_mem (n : Nat) : ∀ c ∈ natChars n, ∃ k, k < 10 ∧ c = digitChar k :=
  natCharsAux_mem (n + 1) n

/-- Digit characters are not `'('`. -/
theorem digitChar_ne_paren : ∀ k, k < 10 → digitChar k ≠ '(' := by decide

/-- `'('` does not occur in a decimal rendering. -/
theorem paren_not_mem_natChars (n : Nat) : '(' ∉ natChars n := by
  intro hmem
  obtain ⟨k, hk, he⟩ := natChars_mem n '(' hmem
  exact digitChar_ne_paren k hk he.symm

/-- `'('` does not occur in the key tail after the first `" ("`. -/
theorem paren_not_mem_keyTail (i v : Nat) :
    '(' ∉ natChars i ++ (" images, ").data ++ natChars v ++ (" videos)").data := by
  intro hmem
  rcases List.mem_append.mp hmem with hmem | hmem
  · rcases List.mem_append.mp hmem with hmem | hmem
    · rcases List.mem_append.mp hmem with hmem | hmem
      · exact paren_not_mem_natChars i hmem
      · revert hmem
        decide
    · exact paren_not_mem_natChars v hmem
  · revert hmem
    decide

/-- A list is a boolean prefix of itself followed by anything. -/
theorem prefB_append_self (a b : Str) : prefB a (a ++ b) = true := by
  induction a with
  | nil => rfl
  | cons c rest ih => simpa [prefB] using ih

/-- Appending a suffix makes it a boolean suffix. -/
theorem suffB_append_self (s t : Str) : suffB t (s ++ t) = true := by
  simp only [suffB, List.reverse_append]
  exact prefB_append_self t.reverse s.reverse

/-- Trimming a freshly appended suffix recovers the front. -/
theorem goTrimSuffix_append (s t : Str) : goTrimSuffix (s ++ t) t = s := by
  simp only [goTrimSuffix, suffB_append_self, if_pos]
  rw [List.length_append, Nat.add_sub_cancel]
  exact List.take_left s t

/-- `keyBody` splits as the directory name followed by `" ("` and a tail. -/
theorem keyBody_split (d : Str) (i v : Nat) :
    keyBody d i v =
      d ++ ' ' :: '(' ::
        (natChars i ++ (" images, ").data ++ natChars v ++ (" videos)").data) := by
  simp only [keyBody]
  simp [List.append_assoc]

/-- First occurrence of `" ("` in `d ++ " (" ++ r`, when `d` has none and the
tail `r` has no `'('` at all, is at the boundary. -/
theorem goIndexSub_boundary (d r : Str)
    (hd : goIndexSub d ([' ', '(']) = none) (hr : '(' ∉ r) :
    goIndexSub (d ++ ' ' :: '(' :: r) ([' ', '(']) = some d.length := by
  induction d with
  | nil =>
    simp [goIndexSub, prefB]
  | cons c d' ih =>
    rw [goIndexSub] at hd
    by_cases hp : prefB [' ', '('] (c :: d') = true
    · rw [if_pos hp] at hd
      exact absurd hd (by simp)
    · rw [if_neg hp] at hd
      have hd' : goIndexSub d' [' ', '('] = none := by
        rcases h : goIndexSub d' [' ', '('] with _ | k
        · rfl
        · rw [h] at hd
          simp at hd
      have hpre : prefB [' ', '('] (c :: (d' ++ ' ' :: '(' :: r)) = false := by
        by_cases hc : ' ' = c
        · subst hc
          cases d' with
          | nil => simp [prefB]
          | cons e d'' =>
            by_cases he : '(' = e
            · subst he
              exfalso
              apply hp
              simp [prefB]
            · simp [prefB, he]
        · simp [prefB, hc]
      rw [List.cons_append, goIndexSub, hpre]
      simp only [Bool.false_eq_true, if_false]
      rw [ih hd']
      simp

/-- C6 amended: for a date-directory name containing no `" ("`, stripping the
`.tar.gz` suffix and cutting at the first `" ("` recovers exactly the
directory name; the counterexample shows the restriction is needed because
the code cuts at the first occurrence, not the trailing parenthetical. -/
theorem C6_key_retraction_amended (d : Str) (i v : Nat)
    (hdate : isDateDirName d = true)
    (hnp : goIndexSub d ((" (").data) = none) :
    extractDirNameFromKey (mkKey d i v) = d := by
  have hnp' : goIndexSub d [' ', '('] = none := hnp
  simp only [extractDirNameFromKey, mkKey]
  rw [goTrimSuffix_append]
  rw [keyBody_split]
  rw [goIndexSub_boundary d _ hnp' (paren_not_mem_keyTail i v)]
  exact List.take_left d _

/-- C6 counterexample: a valid date-directory name whose free-text suffix
contains `" ("`; the derived restore identity is truncated at the first
`" ("` and differs from the directory name. -/
theorem C6_key_retraction_counterexample :
    isDateDirName (("2023 06 J 1 (a)").data) = true ∧
    extractDirNameFromKey (mkKey (("2023 06 J 1 (a)").data) 1 0) =
      ("2023 06 J 1").data ∧
    extractDirNameFromKey (mkKey (("2023 06 J 1 (a)").data) 1 0) ≠
      ("2023 06 J 1 (a)").data := by
  refine ⟨by decide, by decide, by decide⟩

/-- Witness for C6's amended theorem. -/
theorem C6_key_retraction_amended_witness :
    extractDirNameFromKey (mkKey (("2023 06 J 1 trip").data) 2 1) =
      ("2023 06 J 1 trip").data := by
  exact C6_key_retraction_amended (("2023 06 J 1 trip").data) 2 1 (by decide)
    (by decide)

/-! ## C1 — the renamer's ordering and naming

Order-theoretic facts about the comparator, generic over the element order. -/

/-- Asymmetry of the lexicographic order. -/
theorem lexLtB_asymm {α : Type} (ltb : α → α → Bool)
    (H : ∀ a b, ltb a b = true → ltb b a = false) :
    ∀ xs ys, lexLtB ltb xs ys = true → lexLtB ltb ys xs = false := by
  intro xs
  induction xs with
  | nil =>
    intro ys h
    cases ys with
    | nil => simp [lexLtB] at h
    | cons b bs => simp [lexLtB]
  | cons a as ih =>
    intro ys h
    cases ys with
    | nil => simp [lexLtB] at h
    | cons b bs =>
      rw [lexLtB] at h
      cases hab : ltb a b with
      | true => simp [lexLtB, hab, H a b hab]
      | false =>
        rw [hab] at h
        simp only [Bool.false_eq_true, if_false] at h
        cases hba : ltb b a with
        | true =>
          rw [hba] at h
          simp at h
        | false =>
          rw [hba] at h
          simp only [Bool.false_eq_true, if_false] at h
          simp [lexLtB, hab, hba, ih bs h]

/-- Two lists unrelated in both directions are equal. -/
theorem lexLtB_eq_of_both_false {α : Type} (ltb : α → α → Bool)
    (Htri : ∀ a b, ltb a b = false → ltb b a = false → a = b) :
    ∀ xs ys, lexLtB ltb xs ys = false → lexLtB ltb ys xs = false → xs = ys := by
  intro xs
  induction xs with
  | nil =>
    intro ys h1 _
    cases ys with
    | nil => rfl
    | cons b bs => simp [lexLtB] at h1
  | cons a as ih =>
    intro ys h1 h2
    cases ys with
    | nil => simp [lexLtB] at h2
    | cons b bs =>
      rw [lexLtB] at h1 h2
      cases hab : ltb a b with
      | true =>
        rw [hab] at h1
        simp at h1
      | false =>
        cases hba : ltb b a with
        | true =>
          rw [hba] at h2
          simp at h2
        | false =>
          rw [hab, hba] at h1 h2
          simp only [Bool.false_eq_true, if_false] at h1 h2
          rw [Htri a b hab hba, ih bs h1 h2]

/-- Transitivity of the lexicographic order. -/
theorem lexLtB_trans {α : Type} (ltb : α → α → Bool)
    (Htrans : ∀ a b c, ltb a b = true → ltb b c = true → ltb a c = true)
    (Htri : ∀ a b, ltb a b = false → ltb b a = false → a = b) :
    ∀ xs ys zs, lexLtB ltb xs ys = true → lexLtB ltb ys zs = true →
      lexLtB ltb xs zs = true := by
  intro xs
  induction xs with
  | nil =>
    intro ys zs h1 h2
    cases ys with
    | nil => simp [lexLtB] at h1
    | cons b bs =>
      cases zs with
      | nil => simp [lexLtB] at h2
      | cons c cs => simp [lexLtB]
  | cons a as ih =>
    intro ys zs h1 h2
    cases ys with
    | nil => simp [lexLtB] at h1
    | cons b bs =>
      cases zs with
      | nil => simp [lexLtB] at h2
      | cons c cs =>
        rw [lexLtB] at h1 h2 ⊢
        cases hab : ltb a b with
        | true =>
          cases hbc : ltb b c with
          | true => simp [Htrans a b c hab hbc]
          | false =>
            rw [hbc] at h2
            simp only [Bool.false_eq_true, if_false] at h2
            cases hcb : ltb c b with
            | true =>
              rw [hcb] at h2
              simp at h2
            | false =>
              have hbceq : b = c := Htri b c hbc hcb
              subst hbceq
              simp [hab]
        | false =>
          rw [hab] at h1
          simp only [Bool.false_eq_true, if_false] at h1
          cases hba : ltb b a with
          | true =>
            rw [hba] at h1
            simp at h1
          | false =>
            rw [hba] at h1
            simp only [Bool.false_eq_true, if_false] at h1
            have habeq : a = b := Htri a b hab hba
            subst habeq
            cases hac : ltb a c with
            | true => simp
            | false =>
              rw [hac] at h2
              simp only [Bool.false_eq_true, if_false] at h2
              cases hca : ltb c a with
              | true =>
                rw [hca] at h2
                simp at h2
              | false =>
                rw [hca] at h2
                simp only [Bool.false_eq_true, if_false] at h2
                simp [hac, hca, ih bs cs h1 h2]

/-- Asymmetry for the character order. -/
theorem chLtB_asymm : ∀ a b : Char, chLtB a b = true → chLtB b a = false := by
  intro a b h
  simp only [chLtB, decide_eq_true_eq] at h
  simp only [chLtB, decide_eq_false_iff_not]
  exact lt_asymm h

/-- Characters unrelated in both directions are equal. -/
theorem chLtB_tri : ∀ a b : Char, chLtB a b = false → chLtB b a = false → a = b := by
  intro a b h1 h2
  simp only [chLtB, decide_eq_false_iff_not] at h1 h2
  exact le_antisymm (not_lt.mp h2) (not_lt.mp h1)

/-- Transitivity for the character order. -/
theorem chLtB_trans : ∀ a b c : Char, chLtB a b = true → chLtB b c = true →
    chLtB a c = true := by
  intro a b c h1 h2
  simp only [chLtB, decide_eq_true_eq] at h1 h2 ⊢
  exact lt_trans h1 h2

/-- Asymmetry for the natural order. -/
theorem natLtB_asymm : ∀ a b : Nat, natLtB a b = true → natLtB b a = false := by
  intro a b h
  simp only [natLtB, decide_eq_true_eq] at h
  simp only [natLtB, decide_eq_false_iff_not]
  omega

/-- Naturals unrelated in both directions are equal. -/
theorem natLtB_tri : ∀ a b : Nat, natLtB a b = false → natLtB b a = false → a = b := by
  intro a b h1 h2
  simp only [natLtB, decide_eq_false_iff_not] at h1 h2
  omega

/-- Transitivity for the natural order. -/
theorem natLtB_trans : ∀ a b c : Nat, natLtB a b = true → natLtB b c = true →
    natLtB a c = true := by
  intro a b c h1 h2
  simp only [natLtB, decide_eq_true_eq] at h1 h2 ⊢
  omega

/-- Equal keys mean equal `DateTime`s. -/
theorem DateTime.key_inj {a b : DateTime} (h : a.key = b.key) : a = b := by
  cases a
  cases b
  simp [DateTime.key] at h
  simp_all

/-- Asymmetry of `Before`. -/
theorem dtLtB_asymm (a b : DateTime) (h : dtLtB a b = true) : dtLtB b a = false :=
  lexLtB_asymm natLtB natLtB_asymm a.key b.key h

/-- Times unrelated in both directions are equal. -/
theorem dtLtB_tri (a b : DateTime) (h1 : dtLtB a b = false) (h2 : dtLtB b a = false) :
    a = b :=
  DateTime.key_inj (lexLtB_eq_of_both_false natLtB natLtB_tri a.key b.key h1 h2)

/-- Transitivity of `Before`. -/
theorem dtLtB_trans (a b c : DateTime) (h1 : dtLtB a b = true)
    (h2 : dtLtB b c = true) : dtLtB a c = true :=
  lexLtB_trans natLtB natLtB_trans natLtB_tri a.key b.key c.key h1 h2

/-- Asymmetry of the Go string order. -/
theorem strLtB_asymm (a b : Str) (h : strLtB a b = true) : strLtB b a = false :=
  lexLtB_asymm chLtB chLtB_asymm a b h

/-- Strings unrelated in both directions are equal. -/
theorem strLtB_tri (a b : Str) (h1 : strLtB a b = false) (h2 : strLtB b a = false) :
    a = b :=
  lexLtB_eq_of_both_false chLtB chLtB_tri a b h1 h2

/-- Transitivity of the Go string order. -/
theorem strLtB_trans (a b c : Str) (h1 : strLtB a b = true) (h2 : strLtB b c = true) :
    strLtB a c = true :=
  lexLtB_trans chLtB chLtB_trans chLtB_tri a b c h1 h2

/-- `lessGoB` only looks at the date and the path. -/
theorem lessGoB_congr {a b : FWD} (c : FWD) (hd : a.date = b.date)
    (hp : a.path = b.path) : lessGoB c a = lessGoB c b ∧ lessGoB a c = lessGoB b c := by
  constructor
  · simp [lessGoB, hd, hp]
  · simp [lessGoB, hd, hp]

/-- Asymmetry of the `sort.Slice` comparator. -/
theorem lessGoB_asymm (a b : FWD) (h : lessGoB a b = true) : lessGoB b a = false := by
  simp only [lessGoB] at h ⊢
  by_cases hd : a.date = b.date
  · rw [if_pos hd] at h
    rw [if_pos hd.symm]
    exact strLtB_asymm _ _ h
  · rw [if_neg hd] at h
    rw [if_neg fun he => hd he.symm]
    exact dtLtB_asymm _ _ h

/-- Files unrelated in both directions agree on date and path. -/
theorem lessGoB_tie (a b : FWD) (h1 : lessGoB a b = false) (h2 : lessGoB b a = false) :
    a.date = b.date ∧ a.path = b.path := by
  simp only [lessGoB] at h1 h2
  by_cases hd : a.date = b.date
  · rw [if_pos hd] at h1
    rw [if_pos hd.symm] at h2
    exact ⟨hd, strLtB_tri _ _ h1 h2⟩
  · rw [if_neg hd] at h1
    rw [if_neg fun he => hd he.symm] at h2
    exact absurd (dtLtB_tri _ _ h1 h2) hd

/-- Transitivity of the `sort.Slice` comparator. -/
theorem lessGoB_trans (a b c : FWD) (h1 : lessGoB a b = true)
    (h2 : lessGoB b c = true) : lessGoB a c = true := by
  simp only [lessGoB] at h1 h2 ⊢
  by_cases hab : a.date = b.date
  · rw [if_pos hab] at h1
    by_cases hbc : b.date = c.date
    · rw [if_pos hbc] at h2
      rw [if_pos (hab.trans hbc)]
      exact strLtB_trans _ _ _ h1 h2
    · rw [if_neg hbc] at h2
      have hac : ¬a.date = c.date := fun he => hbc (hab.symm.trans he)
      rw [if_neg hac, hab]
      exact h2
  · rw [if_neg hab] at h1
    by_cases hbc : b.date = c.date
    · have hac : ¬a.date = c.date := fun he => hab (he.trans hbc.symm)
      rw [if_neg hac, ← hbc]
      exact h1
    · rw [if_neg hbc] at h2
      have hac : dtLtB a.date c.date = true := dtLtB_trans _ _ _ h1 h2
      have hne : ¬a.date = c.date := by
        intro he
        rw [he] at h1
        have hfa := dtLtB_asymm _ _ h1
        rw [h2] at hfa
        exact Bool.noConfusion hfa
      rw [if_neg hne]
      exact hac

/-- The negated comparator (`a` not after `b`) is total. -/
theorem rGo_total (a b : FWD) : lessGoB b a = false ∨ lessGoB a b = false := by
  cases h : lessGoB b a with
  | false => exact Or.inl rfl
  | true => exact Or.inr (lessGoB_asymm b a h)

/-- The negated comparator is transitive. -/
theorem rGo_trans (a b c : FWD) (h1 : lessGoB b a = false) (h2 : lessGoB c b = false) :
    lessGoB c a = false := by
  cases h : lessGoB c a with
  | false => rfl
  | true =>
    exfalso
    cases hab : lessGoB a b with
    | true =>
      have := lessGoB_trans c a b h hab
      rw [this] at h2
      exact Bool.noConfusion h2
    | false =>
      obtain ⟨hd, hp⟩ := lessGoB_tie a b hab h1
      have := (lessGoB_congr c hd hp).1
      rw [h] at this
      rw [← this] at h2
      exact Bool.noConfusion h2

/-- Position lookup inside the rename loop: the `j`-th step (0-based) renames
the `j`-th sorted file to `{baseName}_{i+j:05d}{ext}` for loop counter
starting at `i`. -/
theorem mkSteps_get (tD bN : Str) :
    ∀ (l : List FWD) (i j : Nat) (h : j < l.length),
      (mkSteps tD bN i l)[j]? =
        some ⟨(l.get ⟨j, h⟩).name, (l.get ⟨j, h⟩).path,
          bN ++ '_' :: pad5 (i + j) ++ toLowerStr (extOf (l.get ⟨j, h⟩).path),
          joinP tD (bN ++ '_' :: pad5 (i + j) ++
            toLowerStr (extOf (l.get ⟨j, h⟩).path))⟩ := by
  intro l
  induction l with
  | nil =>
    intro i j h
    simp at h
  | cons f rest ih =>
    intro i j h
    cases j with
    | zero => simp [mkSteps]
    | succ j' =>
      have h' : j' < rest.length := by simpa using h
      rw [mkSteps]
      simp only [List.getElem?_cons_succ]
      rw [ih (i + 1) j' h']
      have hnum : i + 1 + j' = i + (j' + 1) := by omega
      simp [hnum]

/-- The sorted list really is sorted for the negated comparator. -/
theorem sortFiles_sorted (l : List FWD) :
    (sortFiles l).Pairwise (fun a b => lessGoB b a = false) := by
  haveI : IsTotal FWD (fun a b => lessGoB b a = false) := ⟨rGo_total⟩
  haveI : IsTrans FWD (fun a b => lessGoB b a = false) :=
    ⟨fun a b c h1 h2 => rGo_trans a b c h1 h2⟩
  exact List.sorted_insertionSort _ l

/-- The sorted list is a permutation of the input. -/
theorem sortFiles_perm (l : List FWD) : (sortFiles l).Perm l :=
  List.perm_insertionSort _ l

/-- C1: for every directory listing and filter, the renamer retains exactly
the filter-matching files with their extractor dates (zero time on extractor
failure), sorts them strictly ascending by `(date, path)`, and renames the
`i`-th sorted file (1-based) to `{baseName}_{i:05d}.{ext}` with the extension
lowercased, returning the retained count.  (Distinct paths — always true of a
directory listing — make the comparator a strict total order, so the unstable
`sort.Slice` has this unique output.) -/
theorem C1_sorted_rename (entries : List DirEnt) (sourceDir targetDir baseName : Str)
    (filter : Str → Bool) (getDate : Str → Option DateTime)
    (hdist : (collectFiles entries sourceDir filter getDate).Pairwise
      (fun a b => a.path ≠ b.path)) :
    (renameAssignment entries sourceDir targetDir baseName filter getDate).2 =
      (collectFiles entries sourceDir filter getDate).length ∧
    (sortFiles (collectFiles entries sourceDir filter getDate)).Perm
      (collectFiles entries sourceDir filter getDate) ∧
    (∀ f ∈ collectFiles entries sourceDir filter getDate,
      f.date = resolvedDate getDate f.path) ∧
    (sortFiles (collectFiles entries sourceDir filter getDate)).Pairwise
      (fun a b => dtLtB a.date b.date = true ∨
        (a.date = b.date ∧ strLtB a.path b.path = true)) ∧
    (∀ (j : Nat) (h : j < (sortFiles (collectFiles entries sourceDir filter
        getDate)).length),
      (renameAssignment entries sourceDir targetDir baseName filter getDate).1[j]? =
        some ⟨((sortFiles (collectFiles entries sourceDir filter getDate)).get
            ⟨j, h⟩).name,
          ((sortFiles (collectFiles entries sourceDir filter getDate)).get
            ⟨j, h⟩).path,
          baseName ++ '_' :: pad5 (j + 1) ++ toLowerStr (extOf
            ((sortFiles (collectFiles entries sourceDir filter getDate)).get
              ⟨j, h⟩).path),
          joinP targetDir (baseName ++ '_' :: pad5 (j + 1) ++ toLowerStr (extOf
            ((sortFiles (collectFiles entries sourceDir filter getDate)).get
              ⟨j, h⟩).path))⟩) := by
  have hperm := sortFiles_perm (collectFiles entries sourceDir filter getDate)
  have hsorted := sortFiles_sorted (collectFiles entries sourceDir filter getDate)
  have hdist' : (sortFiles (collectFiles entries sourceDir filter getDate)).Pairwise
      (fun a b => a.path ≠ b.path) :=
    ((List.Perm.pairwise_iff (fun h => Ne.symm h) hperm).mpr hdist)
  refine ⟨?_, hperm, ?_, ?_, ?_⟩
  · simp only [renameAssignment]
    by_cases he : (collectFiles entries sourceDir filter getDate).isEmpty
    · rw [if_pos he]
      rw [List.isEmpty_iff] at he
      simp [he]
    · rw [if_neg he]
  · intro f hf
    simp only [collectFiles, List.mem_filterMap] at hf
    obtain ⟨e, _, hef⟩ := hf
    by_cases hd : e.isDir
    · simp [hd] at hef
    · simp only [hd, if_false, Bool.false_eq_true] at hef
      by_cases hflt : filter (joinP sourceDir e.name)
      · rw [if_pos hflt] at hef
        cases hef
        rfl
      · simp [hflt] at hef
  · refine (hsorted.and hdist').imp ?_
    intro a b hab
    obtain ⟨hle, hne⟩ := hab
    by_cases hd : a.date = b.date
    · refine Or.inr ⟨hd, ?_⟩
      simp only [lessGoB] at hle
      rw [if_pos hd.symm] at hle
      cases hab2 : strLtB a.path b.path with
      | true => rfl
      | false => exact absurd (strLtB_tri _ _ hab2 hle) hne
    · refine Or.inl ?_
      simp only [lessGoB] at hle
      rw [if_neg (fun he => hd (Eq.symm he))] at hle
      cases hab2 : dtLtB a.date b.date with
      | true => rfl
      | false => exact absurd (dtLtB_tri _ _ hab2 hle) hd
  · intro j h
    simp only [renameAssignment]
    have hne : ¬(collectFiles entries sourceDir filter getDate).isEmpty := by
      intro he
      rw [List.isEmpty_iff] at he
      rw [he] at h
      simp [sortFiles, List.insertionSort] at h
    rw [if_neg hne]
    have := mkSteps_get targetDir baseName
      (sortFiles (collectFiles entries sourceDir filter getDate)) 1 j h
    rw [this]
    have hnum : 1 + j = j + 1 := by omega
    simp [hnum]

/-- Witness for C1 on a concrete directory. -/
theorem C1_sorted_rename_witness :
    (sortFiles (collectFiles [⟨("b.jpg").data, false⟩, ⟨("a.jpg").data, false⟩]
        (("d").data) isImageB c9dates)).Pairwise
      (fun a b => dtLtB a.date b.date = true ∨
        (a.date = b.date ∧ strLtB a.path b.path = true)) := by
  exact (C1_sorted_rename [⟨("b.jpg").data, false⟩, ⟨("a.jpg").data, false⟩]
    (("d").data) (("d").data) (("x").data) isImageB c9dates (by decide)).2.2.2.1

/-! ## C2 — the backup/restore round trip

Supporting lemmas: association lists, the filesystem map, key injectivity,
`MkdirAll`, and the extraction invariant. -/

/-- Lookup after insert at the same key. -/
theorem fsLookup_insert_self (fs : FS) (p : List Str) (o : FSObj) :
    fsLookup (fsInsert fs p o) p = some o := by
  induction fs with
  | nil => simp [fsInsert, fsLookup]
  | cons kv rest ih =>
    by_cases h : kv.1 = p
    · simp [fsInsert, fsLookup, h]
    · simp [fsInsert, fsLookup, h, ih]

/-- Lookup after insert at a different key. -/
theorem fsLookup_insert_ne (fs : FS) (p q : List Str) (o : FSObj) (h : q ≠ p) :
    fsLookup (fsInsert fs p o) q = fsLookup fs q := by
  induction fs with
  | nil =>
    simp only [fsInsert, fsLookup]
    rw [if_neg (fun he : p = q => h he.symm)]
  | cons kv rest ih =>
    by_cases hk : kv.1 = p
    · simp only [fsInsert, if_pos hk, fsLookup]
      have hne : ¬kv.1 = q := by
        rw [hk]
        exact fun he => h he.symm
      rw [if_neg hne, if_neg hne]
    · simp only [fsInsert, if_neg hk, fsLookup]
      by_cases hq : kv.1 = q
      · rw [if_pos hq, if_pos hq]
      · rw [if_neg hq, if_neg hq]
        exact ih

/-- Inserting twice at the same key keeps only the second object. -/
theorem fsInsert_insert_same (fs : FS) (p : List Str) (o1 o2 : FSObj) :
    fsInsert (fsInsert fs p o1) p o2 = fsInsert fs p o2 := by
  induction fs with
  | nil => simp [fsInsert]
  | cons kv rest ih =>
    by_cases h : kv.1 = p
    · simp [fsInsert, h]
    · simp [fsInsert, h, ih]

/-- Inserting an absent key appends the binding. -/
theorem alInsert_absent {α β : Type} [DecidableEq α] (l : List (α × β)) (k : α)
    (v : β) (h : alLookup l k = none) : alInsert l k v = l ++ [(k, v)] := by
  induction l with
  | nil => simp [alInsert]
  | cons kv rest ih =>
    simp only [alLookup] at h
    by_cases hk : kv.1 = k
    · rw [if_pos hk] at h
      exact absurd h (by simp)
    · rw [if_neg hk] at h
      simp [alInsert, hk, ih h]

/-- Lookup distributes over append. -/
theorem alLookup_append {α β : Type} [DecidableEq α] (l1 l2 : List (α × β)) (k : α) :
    alLookup (l1 ++ l2) k =
      match alLookup l1 k with
      | some v => some v
      | none => alLookup l2 k := by
  induction l1 with
  | nil => simp [alLookup]
  | cons kv rest ih =>
    by_cases hk : kv.1 = k
    · simp [alLookup, hk]
    · simp [alLookup, hk, ih]

/-- Appending two strings whose tails after `" ("` are `'('`-free is
injective in the front part. -/
theorem append_paren_inj :
    ∀ (xs ys t1 t2 : Str), '(' ∉ t1 → '(' ∉ t2 →
      xs ++ ' ' :: '(' :: t1 = ys ++ ' ' :: '(' :: t2 → xs = ys := by
  intro xs
  induction xs with
  | nil =>
    intro ys t1 t2 h1 h2 he
    cases ys with
    | nil => rfl
    | cons y ys' =>
      exfalso
      simp only [List.nil_append, List.cons_append, List.cons.injEq] at he
      obtain ⟨hy, he'⟩ := he
      cases ys' with
      | nil =>
        simp only [List.nil_append, List.cons.injEq] at he'
        exact absurd he'.1.symm (by decide)
      | cons z zs =>
        simp only [List.cons_append, List.cons.injEq] at he'
        obtain ⟨hz, he''⟩ := he'
        apply h1
        rw [he'']
        subst hz
        simp
  | cons x xs' ih =>
    intro ys t1 t2 h1 h2 he
    cases ys with
    | nil =>
      exfalso
      simp only [List.nil_append, List.cons_append, List.cons.injEq] at he
      obtain ⟨hy, he'⟩ := he
      cases xs' with
      | nil =>
        simp only [List.nil_append, List.cons.injEq] at he'
        exact absurd he'.1 (by decide)
      | cons z zs =>
        simp only [List.cons_append, List.cons.injEq] at he'
        obtain ⟨hz, he''⟩ := he'
        apply h2
        rw [← he'']
        subst hz
        simp
    | cons y ys' =>
      simp only [List.cons_append, List.cons.injEq] at he
      rw [he.1, ih ys' t1 t2 h1 h2 he.2]

/-- The archive key determines the directory name. -/
theorem mkKey_name_inj (d1 d2 : Str) (i1 v1 i2 v2 : Nat)
    (h : mkKey d1 i1 v1 = mkKey d2 i2 v2) : d1 = d2 := by
  have hsplit : ∀ (d : Str) (i v : Nat),
      mkKey d i v = d ++ ' ' :: '(' ::
        ((natChars i ++ (" images, ").data ++ natChars v ++ (" videos)").data) ++
          ((".tar.gz").data)) := by
    intro d i v
    simp only [mkKey, keyBody_split]
    simp [List.append_assoc]
  rw [hsplit, hsplit] at h
  have hfree : ∀ (i v : Nat),
      '(' ∉ (natChars i ++ (" images, ").data ++ natChars v ++ (" videos)").data) ++
        ((".tar.gz").data) := by
    intro i v hmem
    rcases List.mem_append.mp hmem with hmem | hmem
    · exact paren_not_mem_keyTail i v hmem
    · revert hmem
      decide
  exact append_paren_inj d1 d2 _ _ (hfree i1 v1) (hfree i2 v2) h

/-- `MkdirAll` over components that are all existing directories is a no-op. -/
theorem mkdirAllFrom_all_dirs :
    ∀ (comps done : List Str) (fs : FS),
      (∀ k, k < comps.length → fsLookup fs (done ++ comps.take (k + 1)) = some .dirO) →
      mkdirAllFrom fs done comps = .ok fs := by
  intro comps
  induction comps with
  | nil =>
    intro done fs _
    rfl
  | cons c rest ih =>
    intro done fs hall
    have h0 : fsLookup fs (done ++ [c]) = some .dirO := by
      have := hall 0 (by simp)
      simpa using this
    simp only [mkdirAllFrom, h0]
    apply ih
    intro k hk
    have htake := hall (k + 1) (by simpa using Nat.succ_lt_succ hk)
    rw [List.take_succ_cons] at htake
    have heq : (done ++ [c]) ++ List.take (k + 1) rest =
        done ++ c :: List.take (k + 1) rest := by
      simp
    rw [heq]
    exact htake

/-- `MkdirAll` whose proper prefixes exist as directories and whose full path
is absent creates exactly the full path. -/
theorem mkdirAllFrom_fresh_last :
    ∀ (comps done : List Str) (fs : FS), comps ≠ [] →
      (∀ k, k + 1 < comps.length →
        fsLookup fs (done ++ comps.take (k + 1)) = some .dirO) →
      fsLookup fs (done ++ comps) = none →
      mkdirAllFrom fs done comps = .ok (fsInsert fs (done ++ comps) .dirO) := by
  intro comps
  induction comps with
  | nil =>
    intro done fs hne
    exact absurd rfl hne
  | cons c rest ih =>
    intro done fs _ hall hnone
    cases rest with
    | nil =>
      have hnone' : fsLookup fs (done ++ [c]) = none := hnone
      simp only [mkdirAllFrom, hnone']
    | cons c2 rest2 =>
      have h0 : fsLookup fs (done ++ [c]) = some .dirO := by
        have := hall 0 (by simp)
        simpa using this
      simp only [mkdirAllFrom, h0]
      have heq : done ++ c :: c2 :: rest2 = (done ++ [c]) ++ c2 :: rest2 := by
        simp
      have hall' : ∀ k, k + 1 < (c2 :: rest2).length →
          fsLookup fs ((done ++ [c]) ++ List.take (k + 1) (c2 :: rest2)) =
            some .dirO := by
        intro k hk
        have htake := hall (k + 1) (by simp only [List.length_cons] at hk ⊢; omega)
        rw [List.take_succ_cons] at htake
        have heq2 : (done ++ [c]) ++ List.take (k + 1) (c2 :: rest2) =
            done ++ c :: List.take (k + 1) (c2 :: rest2) := by
          simp
        rw [heq2]
        exact htake
      have hnone' : fsLookup fs ((done ++ [c]) ++ c2 :: rest2) = none := by
        rw [← heq]
        exact hnone
      rw [heq]
      exact ih (done ++ [c]) fs (by simp) hall' hnone'

/-- Lifting a well-formed walk under the root entry preserves the archive
shape invariant. -/
theorem arcWF_lift (d : Str) (rp : Nat) :
    ∀ (rest processed : List SrcEntry),
      walkWFAux processed rest →
      arcWFAux (⟨[d], true, rp, []⟩ :: processed.map (liftE d))
        (rest.map (liftE d)) := by
  intro rest
  induction rest with
  | nil =>
    intro processed _
    simp [arcWFAux]
  | cons e rest' ih =>
    intro processed hwf
    obtain ⟨hne, hpref, hdist, hwf'⟩ := hwf
    simp only [List.map_cons, arcWFAux]
    refine ⟨?_, ?_, ?_, ?_⟩
    · simp [liftE]
    · intro k hk hk0
      cases k with
      | zero => exact absurd hk0 (by simp)
      | succ k' =>
        cases k' with
        | zero =>
          exact ⟨⟨[d], true, rp, []⟩, by simp, by simp [liftE], rfl⟩
        | succ k'' =>
          have hlen : k'' + 1 < e.path.length := by
            simp only [liftE, List.length_cons] at hk
            omega
          obtain ⟨t, htmem, htpath, htdir⟩ := hpref (k'' + 1) hlen (by omega)
          refine ⟨liftE d t, ?_, ?_, ?_⟩
          · simp only [List.mem_cons, List.mem_map]
            exact Or.inr ⟨t, htmem, rfl⟩
          · simp [liftE, htpath, List.take_succ_cons]
          · simp [liftE, htdir]
    · intro t htmem
      rcases List.mem_cons.mp htmem with hroot | hmap
      · subst hroot
        simp only [liftE]
        intro he
        apply hne
        have hlen : (1 : Nat) = e.path.length + 1 := by
          have := congrArg List.length he
          simpa using this
        exact List.eq_nil_of_length_eq_zero (by omega)
      · obtain ⟨s, hsmem, hs⟩ := List.mem_map.mp hmap
        subst hs
        simp only [liftE]
        intro he
        simp only [List.cons.injEq, true_and] at he
        exact hdist s hsmem he
    · have := ih (processed ++ [e]) hwf'
      rw [List.map_append] at this
      simpa [List.append_assoc] using this

/-- The extraction invariant: extracting a well-shaped archive rooted at `d`
into a filesystem containing nothing rooted at `d` succeeds, creates exactly
the entries' objects, and leaves everything outside `d` untouched. -/
theorem extract_go (d : Str) (fs0 : FS)
    (hfs0 : ∀ p, (fsLookup fs0 p).isSome → p.head? ≠ some d) :
    ∀ (rest processed : List TarEntry) (fs : FS),
      arcWFAux processed rest →
      (∀ t ∈ rest, t.name.head? = some d) →
      (∀ t ∈ processed, t.name.head? = some d) →
      (∀ t ∈ processed, fsLookup fs t.name = some (entryObj t)) →
      (∀ p, p.head? ≠ some d → fsLookup fs p = fsLookup fs0 p) →
      (∀ p, (fsLookup fs p).isSome →
        (fsLookup fs0 p).isSome ∨ ∃ t ∈ processed, t.name = p) →
      ∃ fs', extractTarGzModel fs rest = .ok fs' ∧
        (∀ t ∈ processed ++ rest, fsLookup fs' t.name = some (entryObj t)) ∧
        (∀ p, p.head? ≠ some d → fsLookup fs' p = fsLookup fs0 p) ∧
        (∀ p, (fsLookup fs' p).isSome →
          (fsLookup fs0 p).isSome ∨ ∃ t ∈ processed ++ rest, t.name = p) := by
  intro rest
  induction rest with
  | nil =>
    intro processed fs _ _ _ inv4 inv5 inv6
    exact ⟨fs, rfl, by simpa using inv4, inv5, by simpa using inv6⟩
  | cons e rest' ih =>
    intro processed fs harc hrest hproc inv4 inv5 inv6
    obtain ⟨hne, hpref, hdist, harc'⟩ := harc
    have hroot_e : e.name.head? = some d := hrest e (List.mem_cons_self e rest')
    have hnonnil : e.name ≠ [] := by
      intro h
      rw [h] at hroot_e
      simp at hroot_e
    have hlook_e : fsLookup fs e.name = none := by
      cases hl : fsLookup fs e.name with
      | none => rfl
      | some o =>
        exfalso
        have hs : (fsLookup fs e.name).isSome := by rw [hl]; rfl
        rcases inv6 _ hs with h0 | ⟨t, htm, htn⟩
        · exact hfs0 _ h0 hroot_e
        · exact hdist t htm htn
    have hprefix_dir : ∀ k, 0 < k → k < e.name.length →
        fsLookup fs (e.name.take k) = some .dirO := by
      intro k hk0 hklen
      obtain ⟨t, htm, htn, htd⟩ := hpref k hklen hk0
      have hto := inv4 t htm
      rw [htn] at hto
      simp only [entryObj, htd, if_pos] at hto
      exact hto
    have hentry : extractEntry fs e = .ok (fsInsert fs e.name (entryObj e)) := by
      cases hd : e.isDir with
      | true =>
        simp only [extractEntry, hd, if_pos, entryObj]
        simp only [mkdirAll]
        rw [mkdirAllFrom_fresh_last e.name [] fs hnonnil ?_ ?_]
        · simp
        · intro k hk
          have := hprefix_dir (k + 1) (by omega) hk
          simpa using this
        · simpa using hlook_e
      | false =>
        simp only [extractEntry, hd]
        simp only [Bool.false_eq_true, if_false]
        have hmk : mkdirAll fs e.name.dropLast = .ok fs := by
          simp only [mkdirAll]
          apply mkdirAllFrom_all_dirs
          intro k hk
          have hklen : k + 1 < e.name.length := by
            rw [List.length_dropLast] at hk
            omega
          have htake : e.name.dropLast.take (k + 1) = e.name.take (k + 1) := by
            rw [List.dropLast_eq_take, List.take_take]
            congr 1
            rw [List.length_dropLast] at hk
            omega
          rw [List.nil_append, htake]
          exact hprefix_dir (k + 1) (by omega) hklen
        rw [hmk]
        simp only [chmodFS, fsLookup_insert_self]
        rw [fsInsert_insert_same]
        simp [entryObj, hd]
    have hpe : (processed ++ [e]) ++ rest' = processed ++ e :: rest' := by simp
    have hstep := ih (processed ++ [e]) (fsInsert fs e.name (entryObj e)) harc'
      (fun t ht => hrest t (List.mem_cons_of_mem e ht))
      (fun t ht => by
        rcases List.mem_append.mp ht with ht | ht
        · exact hproc t ht
        · rw [List.mem_singleton.mp ht]
          exact hroot_e)
      (fun t ht => by
        rcases List.mem_append.mp ht with ht | ht
        · rw [fsLookup_insert_ne fs _ _ _ (hdist t ht)]
          exact inv4 t ht
        · rw [List.mem_singleton.mp ht]
          exact fsLookup_insert_self fs e.name (entryObj e))
      (fun p hp => by
        have hpne : p ≠ e.name := by
          intro he
          rw [he] at hp
          exact hp hroot_e
        rw [fsLookup_insert_ne fs _ _ _ hpne]
        exact inv5 p hp)
      (fun p hp => by
        by_cases hpe2 : p = e.name
        · exact Or.inr ⟨e, by simp, hpe2.symm⟩
        · rw [fsLookup_insert_ne fs _ _ _ hpe2] at hp
          rcases inv6 p hp with h0 | ⟨t, htm, htn⟩
          · exact Or.inl h0
          · exact Or.inr ⟨t, List.mem_append.mpr (Or.inl htm), htn⟩)
    obtain ⟨fs', hrun, hobj, hout, hdom⟩ := hstep
    refine ⟨fs', ?_, ?_, hout, ?_⟩
    · simp only [extractTarGzModel, hentry]
      exact hrun
    · rw [← hpe]
      exact hobj
    · rw [← hpe]
      exact hdom

/-- Extracting the archive of one well-formed directory into a filesystem
containing nothing rooted at the directory's name. -/
theorem extract_archive (d : Str) (rp : Nat) (entries : List SrcEntry) (fs : FS)
    (hwf : walkWF entries)
    (hfs : ∀ p, (fsLookup fs p).isSome → p.head? ≠ some d) :
    ∃ fs', extractTarGzModel fs (createTarGzModel d rp entries) = .ok fs' ∧
      (∀ e ∈ entries, e.isDir = false →
        fsLookup fs' (d :: e.path) = some (.fileO e.perm e.content)) ∧
      (∀ p, p.head? ≠ some d → fsLookup fs' p = fsLookup fs p) ∧
      (∀ p, (fsLookup fs' p).isSome → (fsLookup fs p).isSome ∨ p.head? = some d) := by
  have harc : arcWFAux [] (createTarGzModel d rp entries) := by
    simp only [createTarGzModel, arcWFAux]
    refine ⟨by simp, ?_, by simp, ?_⟩
    · intro k hk hk0
      simp only [List.length_singleton] at hk
      omega
    · have := arcWF_lift d rp entries [] hwf
      simpa using this
  have hroot : ∀ t ∈ createTarGzModel d rp entries, t.name.head? = some d := by
    intro t ht
    simp only [createTarGzModel, List.mem_cons, List.mem_map] at ht
    rcases ht with rfl | ⟨e, _, rfl⟩
    · rfl
    · rfl
  obtain ⟨fs', hrun, hobj, hout, hdom⟩ :=
    extract_go d fs hfs (createTarGzModel d rp entries) [] fs harc hroot
      (by simp) (by simp) (fun p _ => rfl) (fun p hp => Or.inl hp)
  refine ⟨fs', hrun, ?_, hout, ?_⟩
  · intro e he hdir
    have hmem : liftE d e ∈ ([] : List TarEntry) ++ createTarGzModel d rp entries := by
      simp only [List.nil_append, createTarGzModel, List.mem_cons, List.mem_map]
      exact Or.inr ⟨e, he, rfl⟩
    have := hobj (liftE d e) hmem
    simpa [liftE, entryObj, hdir] using this
  · intro p hp
    rcases hdom p hp with h0 | ⟨t, htm, htn⟩
    · exact Or.inl h0
    · right
      rw [← htn]
      exact hroot t (by simpa using htm)

/-- One backup job on a store missing the key uploads under that key. -/
theorem backupDirectoryModel_absent (sourceDir : Str) (store : Store) (d : SrcDir)
    (h : alLookup store (keyFor sourceDir d) = none) :
    backupDirectoryModel sourceDir store d =
      (store ++ [(keyFor sourceDir d, archiveFor d)], none) := by
  simp only [backupDirectoryModel, h]
  have hnf : isNotFoundError ⟨true, some (("NotFound").data), ("NotFound").data⟩ =
      true := by decide
  simp only [backupHeadDecision, hnf, if_pos]
  rw [alInsert_absent store _ _ h]

/-- The backup pool over fresh keys appends each directory's archive and
reports no failures. -/
theorem backup_fold (sourceDir : Str) :
    ∀ (dirs : List SrcDir) (store : Store),
      (∀ d ∈ dirs, alLookup store (keyFor sourceDir d) = none) →
      dirs.Pairwise (fun a b => keyFor sourceDir a ≠ keyFor sourceDir b) →
      List.foldl
        (fun acc j =>
          let r := backupDirectoryModel sourceDir acc.1 j
          (r.1, acc.2 + if r.2.isSome then 1 else 0))
        (store, 0) dirs =
        (store ++ dirs.map (fun d => (keyFor sourceDir d, archiveFor d)), 0) := by
  intro dirs
  induction dirs with
  | nil =>
    intro store _ _
    simp
  | cons d0 dirs' ih =>
    intro store habs hpair
    have h0 := backupDirectoryModel_absent sourceDir store d0
      (habs d0 (List.mem_cons_self d0 dirs'))
    have hstep :
        (let r := backupDirectoryModel sourceDir (store, (0 : Nat)).1 d0
         (r.1, (store, (0 : Nat)).2 + if r.2.isSome then 1 else 0)) =
          (store ++ [(keyFor sourceDir d0, archiveFor d0)], (0 : Nat)) := by
      simp [h0]
    have habs' : ∀ d ∈ dirs',
        alLookup (store ++ [(keyFor sourceDir d0, archiveFor d0)])
          (keyFor sourceDir d) = none := by
      intro d hd
      rw [alLookup_append]
      rw [habs d (List.mem_cons_of_mem d0 hd)]
      have hkne : keyFor sourceDir d0 ≠ keyFor sourceDir d :=
        (List.pairwise_cons.mp hpair).1 d hd
      simp [alLookup, hkne]
    rw [List.foldl_cons, hstep,
      ih (store ++ [(keyFor sourceDir d0, archiveFor d0)]) habs'
        (List.pairwise_cons.mp hpair).2]
    simp

/-- Looking a directory's key up in the store the backup built. -/
theorem store_lookup_built (sourceDir : Str) :
    ∀ (dirs : List SrcDir),
      dirs.Pairwise (fun a b => keyFor sourceDir a ≠ keyFor sourceDir b) →
      ∀ d ∈ dirs,
        alLookup (dirs.map (fun d2 => (keyFor sourceDir d2, archiveFor d2)))
          (keyFor sourceDir d) = some (archiveFor d) := by
  intro dirs
  induction dirs with
  | nil =>
    intro _ d hd
    simp at hd
  | cons d0 dirs' ih =>
    intro hpair d hd
    rcases List.mem_cons.mp hd with rfl | hd'
    · simp [alLookup]
    · have hkne : keyFor sourceDir d0 ≠ keyFor sourceDir d :=
        (List.pairwise_cons.mp hpair).1 d hd'
      simp only [List.map_cons, alLookup, if_neg hkne]
      exact ih (List.pairwise_cons.mp hpair).2 d hd'

/-- The restore pool over the built store: every job succeeds, every archived
regular file lands under its directory's name, and nothing else appears. -/
theorem restore_fold (sourceDir : Str) (fullStore : Store) :
    ∀ (dirs processedDirs : List SrcDir) (fs : FS),
      (∀ d ∈ dirs, alLookup fullStore (keyFor sourceDir d) = some (archiveFor d)) →
      (∀ d ∈ dirs, walkWF d.entries) →
      (∀ a ∈ processedDirs, ∀ b ∈ dirs, a.name ≠ b.name) →
      dirs.Pairwise (fun a b => a.name ≠ b.name) →
      (∀ b ∈ dirs, ∀ a ∈ processedDirs,
        extractDirNameFromKey (keyFor sourceDir b) ≠ a.name) →
      (∀ a ∈ dirs, ∀ b ∈ dirs, a.name ≠ b.name →
        extractDirNameFromKey (keyFor sourceDir b) ≠ a.name) →
      (∀ p, (fsLookup fs p).isSome → ∃ a ∈ processedDirs, p.head? = some a.name) →
      (∀ a ∈ processedDirs, ∀ e ∈ a.entries, e.isDir = false →
        fsLookup fs (a.name :: e.path) = some (.fileO e.perm e.content)) →
      ∃ fs',
        List.foldl
          (fun acc k =>
            let r := restoreObjectModel fullStore acc.1 k
            (r.1, acc.2 + if r.2.isSome then 1 else 0))
          (fs, 0) (dirs.map (fun d => keyFor sourceDir d)) = (fs', 0) ∧
        (∀ a ∈ processedDirs ++ dirs, ∀ e ∈ a.entries, e.isDir = false →
          fsLookup fs' (a.name :: e.path) = some (.fileO e.perm e.content)) ∧
        (∀ p, (fsLookup fs' p).isSome →
          ∃ a ∈ processedDirs ++ dirs, p.head? = some a.name) := by
  intro dirs
  induction dirs with
  | nil =>
    intro processedDirs fs _ _ _ _ _ _ invDom invFiles
    exact ⟨fs, by simp, by simpa using invFiles, by simpa using invDom⟩
  | cons d0 dirs' ih =>
    intro processedDirs fs hstore hwf hproc hpair hcrossProc hcrossAll invDom invFiles
    have hd0mem : d0 ∈ d0 :: dirs' := List.mem_cons_self d0 dirs'
    have hprecheck :
        fsLookup fs [extractDirNameFromKey (keyFor sourceDir d0)] = none := by
      cases hl : fsLookup fs [extractDirNameFromKey (keyFor sourceDir d0)] with
      | none => rfl
      | some o =>
        exfalso
        have hs : (fsLookup fs
            [extractDirNameFromKey (keyFor sourceDir d0)]).isSome := by
          rw [hl]; rfl
        obtain ⟨a, ham, hhead⟩ := invDom _ hs
        simp only [List.head?_cons, Option.some.injEq] at hhead
        exact hcrossProc d0 hd0mem a ham hhead
    have hfs_pre : ∀ p, (fsLookup fs p).isSome → p.head? ≠ some d0.name := by
      intro p hp hhead
      obtain ⟨a, ham, hhead2⟩ := invDom p hp
      rw [hhead] at hhead2
      simp only [Option.some.injEq] at hhead2
      exact hproc a ham d0 hd0mem hhead2.symm
    obtain ⟨fs1, hrun1, hfiles1, hpres1, hdom1⟩ :=
      extract_archive d0.name d0.rootPerm d0.entries fs (hwf d0 hd0mem) hfs_pre
    have hobj : restoreObjectModel fullStore fs (keyFor sourceDir d0) =
        (fs1, none) := by
      have harch : extractTarGzModel fs (archiveFor d0) = .ok fs1 := hrun1
      simp only [restoreObjectModel, hprecheck, Option.isSome_none,
        Bool.false_eq_true, if_false, hstore d0 hd0mem, harch]
    have hstep :
        (let r := restoreObjectModel fullStore (fs, (0 : Nat)).1 (keyFor sourceDir d0)
         (r.1, (fs, (0 : Nat)).2 + if r.2.isSome then 1 else 0)) = (fs1, (0 : Nat)) := by
      simp [hobj]
    have hpe : (processedDirs ++ [d0]) ++ dirs' = processedDirs ++ d0 :: dirs' := by
      simp
    have hstep2 := ih (processedDirs ++ [d0]) fs1
      (fun d hd => hstore d (List.mem_cons_of_mem d0 hd))
      (fun d hd => hwf d (List.mem_cons_of_mem d0 hd))
      (fun a ham b hbm => by
        rcases List.mem_append.mp ham with ham | ham
        · exact hproc a ham b (List.mem_cons_of_mem d0 hbm)
        · rw [List.mem_singleton.mp ham]
          exact (List.pairwise_cons.mp hpair).1 b hbm)
      (List.pairwise_cons.mp hpair).2
      (fun b hbm a ham => by
        rcases List.mem_append.mp ham with ham | ham
        · exact hcrossProc b (List.mem_cons_of_mem d0 hbm) a ham
        · rw [List.mem_singleton.mp ham]
          exact hcrossAll d0 hd0mem b (List.mem_cons_of_mem d0 hbm)
            ((List.pairwise_cons.mp hpair).1 b hbm))
      (fun a ham b hbm => hcrossAll a (List.mem_cons_of_mem d0 ham) b
        (List.mem_cons_of_mem d0 hbm))
      (fun p hp => by
        rcases hdom1 p hp with hold | hroot
        · obtain ⟨a, ham, hhead⟩ := invDom p hold
          exact ⟨a, List.mem_append.mpr (Or.inl ham), hhead⟩
        · exact ⟨d0, List.mem_append.mpr (Or.inr (by simp)), hroot⟩)
      (fun a ham e he hdir => by
        rcases List.mem_append.mp ham with ham | ham
        · have hne : (a.name :: e.path).head? ≠ some d0.name := by
            simp only [List.head?_cons]
            exact fun hcon => hproc a ham d0 hd0mem (Option.some.inj hcon)
          rw [hpres1 _ hne]
          exact invFiles a ham e he hdir
        · have ha0 : a = d0 := List.mem_singleton.mp ham
          subst ha0
          exact hfiles1 e he hdir)
    obtain ⟨fs', hrun', hfiles', hdom'⟩ := hstep2
    refine ⟨fs', ?_, ?_, ?_⟩
    · rw [List.map_cons, List.foldl_cons, hstep]
      exact hrun'
    · rw [← hpe]
      exact hfiles'
    · rw [← hpe]
      exact hdom'

/-- C2 amended: backing up a source tree of date directories into an empty
store and then restoring with the empty filter into an empty target
reproduces every regular file's content and permission bits under the
original directory name, provided the restore identity derived from any
directory's key differs from every *other* directory's name (automatic when
no name contains `" ("`; the counterexample shows the proviso is needed). -/
theorem C2_roundtrip_amended (sourceDir : Str) (dirs : List SrcDir) (mc1 mc2 : Int)
    (hmc1 : 0 < mc1) (hmc2 : 0 < mc2)
    (hwf : ∀ d ∈ dirs, walkWF d.entries)
    (hnames : dirs.Pairwise (fun a b => a.name ≠ b.name))
    (hparse : ∀ d ∈ dirs, matchesFilter (keyFor sourceDir d) emptyFilter = true)
    (hcross : ∀ a ∈ dirs, ∀ b ∈ dirs, a.name ≠ b.name →
      extractDirNameFromKey (keyFor sourceDir b) ≠ a.name) :
    (backupDirectoriesModel sourceDir [] dirs mc1).2 = 0 ∧
    (restoreDirectoriesModel (backupDirectoriesModel sourceDir [] dirs mc1).1
        emptyFilter [] mc2).2 = 0 ∧
    (∀ d ∈ dirs, ∀ e ∈ d.entries, e.isDir = false →
      fsLookup (restoreDirectoriesModel
          (backupDirectoriesModel sourceDir [] dirs mc1).1 emptyFilter [] mc2).1
        (d.name :: e.path) = some (.fileO e.perm e.content)) := by
  have hkeys : dirs.Pairwise
      (fun a b => keyFor sourceDir a ≠ keyFor sourceDir b) := by
    refine hnames.imp ?_
    intro a b hab hkey
    exact hab (mkKey_name_inj _ _ _ _ _ _ hkey)
  have hback : backupDirectoriesModel sourceDir [] dirs mc1 =
      (dirs.map (fun d => (keyFor sourceDir d, archiveFor d)), 0) := by
    simp only [backupDirectoriesModel, runPoolSt]
    rw [if_neg (by omega : ¬mc1 ≤ (0 : Int))]
    have := backup_fold sourceDir dirs [] (fun d _ => rfl) hkeys
    simpa using this
  have hkeysList :
      (((dirs.map (fun d => (keyFor sourceDir d, archiveFor d))).map
          Prod.fst).filter (fun k => matchesFilter k emptyFilter)) =
        dirs.map (fun d => keyFor sourceDir d) := by
    rw [List.map_map]
    have hmap : (Prod.fst ∘ fun d => (keyFor sourceDir d, archiveFor d)) =
        fun d => keyFor sourceDir d := rfl
    rw [hmap]
    rw [List.filter_eq_self]
    intro k hk
    obtain ⟨d, hd, rfl⟩ := List.mem_map.mp hk
    exact hparse d hd
  obtain ⟨fs', hrun, hfiles, _⟩ :=
    restore_fold sourceDir (dirs.map fun d => (keyFor sourceDir d, archiveFor d))
      dirs [] []
      (store_lookup_built sourceDir dirs hkeys) hwf (by simp) hnames (by simp)
      hcross (fun p hp => by simp [fsLookup] at hp) (by simp)
  have hrest : restoreDirectoriesModel
      (dirs.map fun d => (keyFor sourceDir d, archiveFor d)) emptyFilter [] mc2 =
      (fs', 0) := by
    simp only [restoreDirectoriesModel]
    rw [hkeysList]
    simp only [runPoolSt]
    rw [if_neg (by omega : ¬mc2 ≤ (0 : Int))]
    exact hrun
  refine ⟨by rw [hback], ?_, ?_⟩
  · rw [hback]
    simp only []
    rw [hrest]
  · intro d hd e he hdir
    rw [hback]
    simp only []
    rw [hrest]
    exact hfiles d (by simpa using hd) e he hdir

/-- C2 counterexample: two valid date directories, the second carrying a
`" ("` in its suffix; both keys parse and pass the empty filter, yet the
round trip fails one restore job and the second directory's regular file is
not reproduced — its derived restore identity collides with the first
directory's name, so the no-overwrite check rejects the job. -/
theorem C2_roundtrip_counterexample :
    isDateDirName c2dirA.name = true ∧
    isDateDirName c2dirB.name = true ∧
    c2dirA.name ≠ c2dirB.name ∧
    (∀ d ∈ c2dirs, matchesFilter (keyFor (("src").data) d) emptyFilter = true) ∧
    c2run.2 = 1 ∧
    fsLookup c2run.1 (c2dirB.name :: [(("a.jpg").data)]) = none := by
  refine ⟨by decide, by decide, by decide, by decide, by decide, by decide⟩

/-- Witness for C2's amended theorem on a one-directory source. -/
theorem C2_roundtrip_amended_witness :
    fsLookup (restoreDirectoriesModel
        (backupDirectoriesModel (("src").data) [] [c2dirA] 5).1 emptyFilter [] 5).1
      (c2dirA.name :: [(("p.jpg").data)]) = some (.fileO 420 [1]) := by
  have hwf1 : walkWF c2dirA.entries := by
    refine ⟨by decide, ?_, by simp, trivial⟩
    intro k hk hk0
    simp at hk
    omega
  have h := C2_roundtrip_amended (("src").data) [c2dirA] 5 5 (by norm_num)
    (by norm_num)
    (fun d hd => by
      have hd1 : d = c2dirA := List.mem_singleton.mp hd
      subst hd1
      exact hwf1)
    (by simp)
    (fun d hd => by
      have hd1 : d = c2dirA := List.mem_singleton.mp hd
      subst hd1
      decide)
    (fun a ha b hb hne => by
      have ha1 : a = c2dirA := List.mem_singleton.mp ha
      have hb1 : b = c2dirA := List.mem_singleton.mp hb
      subst ha1
      subst hb1
      exact absurd rfl hne)
  exact h.2.2 c2dirA (List.mem_singleton.mpr rfl) ⟨[(("p.jpg").data)], false, 420, [1]⟩
    (by decide) rfl

end Pics
